import Mathlib

/-!
Verification development for the GIFT format parser/exporter in
`src/gift2json.js` (a JS translation of Moodle's `format.php`).

Strings are modelled as `List Char`.  JS numbers are modelled as exact
decimals (`DNum`, with rational semantics `DNum.toQ`); `Option DNum` models a
numeric reading where `none` stands for a non-finite result (`NaN` or
`±Infinity`), which the source code treats identically through `isFinite`
checks.  Every definition in the "source embedding" section is a direct
transcription of the correspondingly named function of `src/gift2json.js`.
-/

set_option maxHeartbeats 4000000
set_option maxRecDepth 20000

/- ===== character constants (braces written via code points) ===== -/

def lb : Char := Char.ofNat 123   -- left curly brace
def rb : Char := Char.ofNat 125   -- right curly brace
def bs : Char := '\\'
def lf : Char := '\n'
def cr : Char := '\r'
def ltc : Char := '<'
def gtc : Char := '>'

/- ===== generic JS string primitives ===== -/

/-- JS whitespace test (the ASCII part of `\s`, which is all the source ever
meets in the claims below). -/
def isWs (c : Char) : Bool :=
  c == ' ' || c == '\t' || c == lf || c == cr || c == '\x0b' || c == '\x0c'

/-- Drop matching characters from the right end. -/
def dropR (p : Char → Bool) (s : List Char) : List Char :=
  (s.reverse.dropWhile p).reverse

/-- JS `String.prototype.trim`. -/
def trim (s : List Char) : List Char := dropR isWs (s.dropWhile isWs)

def jsIndexOfGo (c : Char) : List Char → Nat → Int
  | [], _ => -1
  | a :: r, i => if a = c then (i : Int) else jsIndexOfGo c r (i + 1)

/-- JS `s.indexOf(c)` for a single character. -/
def jsIndexOf (s : List Char) (c : Char) : Int := jsIndexOfGo c s 0

def jsLastIndexOfGo (c : Char) : List Char → Nat → Int → Int
  | [], _, best => best
  | a :: r, i, best => jsLastIndexOfGo c r (i + 1) (if a = c then (i : Int) else best)

/-- JS `s.lastIndexOf(c)` for a single character. -/
def jsLastIndexOf (s : List Char) (c : Char) : Int := jsLastIndexOfGo c s 0 (-1)

def jsIndexOfStrGo (pat : List Char) : List Char → Nat → Int
  | [], i => if pat = [] then (i : Int) else -1
  | a :: r, i => if pat.isPrefixOf (a :: r) then (i : Int) else jsIndexOfStrGo pat r (i + 1)

/-- JS `s.indexOf(pat)` for a string pattern. -/
def jsIndexOfStr (s : List Char) (pat : List Char) : Int := jsIndexOfStrGo pat s 0

/-- JS `s.indexOf(pat, start)` (used for `text.indexOf('::', 2)`). -/
def jsIndexOfStrFrom (s : List Char) (pat : List Char) (start : Nat) : Int :=
  jsIndexOfStrGo pat (s.drop start) start

def jsLastIndexOfStrGo (pat : List Char) : List Char → Nat → Int → Int
  | [], _, best => best
  | a :: r, i, best =>
    jsLastIndexOfStrGo pat r (i + 1) (if pat.isPrefixOf (a :: r) then (i : Int) else best)

/-- JS `s.lastIndexOf(pat)` for a (non-empty) string pattern. -/
def jsLastIndexOfStr (s : List Char) (pat : List Char) : Int :=
  jsLastIndexOfStrGo pat s 0 (-1)

/-- JS `s.includes(pat)` for a (non-empty) string pattern. -/
def containsStr (pat : List Char) : List Char → Bool
  | [] => false
  | c :: r => pat.isPrefixOf (c :: r) || containsStr pat r

/-- JS `s.slice(start, finish)` with the usual clamping of signed indices. -/
def jsSlice (s : List Char) (start finish : Int) : List Char :=
  let len : Int := s.length
  let st := if start < 0 then max (len + start) 0 else min start len
  let en := if finish < 0 then max (len + finish) 0 else min finish len
  (s.take en.toNat).drop st.toNat

/-- JS `s.slice(start)`. -/
def jsSliceFrom (s : List Char) (start : Int) : List Char := jsSlice s start s.length

/-- JS `s.split(c)` (no limit) for a single-character separator. -/
def jsSplitChar (c : Char) : List Char → List (List Char)
  | [] => [[]]
  | a :: r =>
    match jsSplitChar c r with
    | [] => [[]]
    | g :: gs => if a = c then [] :: g :: gs else (a :: g) :: gs

/-- JS `s.split('..')` (used by the numerical range grammar). -/
def splitDD : List Char → List (List Char)
  | [] => [[]]
  | [a] => [[a]]
  | a :: b :: r =>
    if a = '.' ∧ b = '.' then [] :: splitDD r
    else
      match splitDD (b :: r) with
      | [] => [[]]
      | g :: gs => (a :: g) :: gs

/-- One-pass fueled worker for JS `String.replace(new RegExp(literal,'g'), rep)`:
scan left to right, replace each non-overlapping occurrence, continue after the
replacement text.  The fuel is the length of the scanned string, which always
suffices because every step consumes at least one character. -/
def replaceAllGo (pat rep : List Char) : Nat → List Char → List Char
  | _, [] => []
  | 0, s => s
  | fuel + 1, c :: rest =>
    if pat ≠ [] ∧ pat.isPrefixOf (c :: rest) then
      rep ++ replaceAllGo pat rep fuel (List.drop (pat.length - 1) rest)
    else
      c :: replaceAllGo pat rep fuel rest

/-- Global literal-string replacement with JS semantics. -/
def replaceAll (pat rep s : List Char) : List Char := replaceAllGo pat rep s.length s

/-- JS `s.replace(/<[^>]*>/g, '')` (HTML-tag stripping for default names).
A `<` opens a removed run up to the next `>` only when that `>` exists. -/
def stripTagsGo : Bool → List Char → List Char
  | _, [] => []
  | true, c :: rest => if c = gtc then stripTagsGo false rest else stripTagsGo true rest
  | false, c :: rest =>
    if c = ltc ∧ gtc ∈ rest then stripTagsGo true rest
    else c :: stripTagsGo false rest

def stripTags (s : List Char) : List Char := stripTagsGo false s

/-- JS `s.replace(/\r\n?/g, '\n')`. -/
def normNewlines : List Char → List Char
  | [] => []
  | [c] => if c = cr then [lf] else [c]
  | c :: c2 :: r2 =>
    if c = cr then
      if c2 = lf then lf :: normNewlines r2 else lf :: normNewlines (c2 :: r2)
    else c :: normNewlines (c2 :: r2)

def digitsToNat (ds : List Char) : Nat :=
  ds.foldl (fun a c => a * 10 + (c.toNat - 48)) 0

/-- Canonical exact-decimal numbers `m / 10^e` (with `e = 0` or `10 ∤ m`),
modelling the JS numbers this program computes: every number the source
produces or prints is a decimal, and all its arithmetic (`/100`, `*100`,
midpoint, difference) stays decimal.  Double rounding and
overflow-to-infinity are outside this exact model. -/
structure DNum where
  m : Int
  e : Nat
deriving DecidableEq

/-- Strip factors of ten to reach the canonical representative. -/
def dnorm : Int → Nat → DNum
  | m, 0 => ⟨m, 0⟩
  | m, e + 1 => if m % 10 = 0 then dnorm (m / 10) e else ⟨m, e + 1⟩

def DNum.add (x y : DNum) : DNum :=
  dnorm (x.m * 10 ^ (max x.e y.e - x.e) + y.m * 10 ^ (max x.e y.e - y.e)) (max x.e y.e)

def DNum.sub (x y : DNum) : DNum :=
  dnorm (x.m * 10 ^ (max x.e y.e - x.e) - y.m * 10 ^ (max x.e y.e - y.e)) (max x.e y.e)

/-- Exact division by two (a decimal stays a decimal: `x/2 = 5x/10`). -/
def DNum.half (x : DNum) : DNum := dnorm (5 * x.m) (x.e + 1)

def DNum.div100 (x : DNum) : DNum := dnorm x.m (x.e + 2)

def DNum.mul100 (x : DNum) : DNum := dnorm (x.m * 100) x.e

def DNum.zero : DNum := ⟨0, 0⟩

def DNum.one : DNum := ⟨1, 0⟩

/-- The rational value of a decimal number. -/
def DNum.toQ (x : DNum) : ℚ := mkRat x.m (10 ^ x.e)

/-- JS `parseFloat`: longest numeric prefix after leading whitespace.
`none` models a non-finite reading (`NaN`, or the `Infinity` literal), which
the source only ever inspects through `isFinite`.  The mantissa/exponent are
assembled into the exact decimal `sgn * (ip.fp) * 10^expo`. -/
def jsParseFloat (s : List Char) : Option DNum :=
  let s1 := s.dropWhile isWs
  let (sgn, s2) : Int × List Char :=
    match s1 with
    | '-' :: r => (-1, r)
    | '+' :: r => (1, r)
    | _ => (1, s1)
  if ("Infinity".data).isPrefixOf s2 then none
  else
    let ip := s2.takeWhile Char.isDigit
    let s3 := s2.drop ip.length
    let (fp, s4) : List Char × List Char :=
      match s3 with
      | '.' :: r => (r.takeWhile Char.isDigit, r.drop (r.takeWhile Char.isDigit).length)
      | _ => ([], s3)
    if ip = [] ∧ fp = [] then none
    else
      let mant : Int := sgn * (digitsToNat ip * 10 ^ fp.length + digitsToNat fp)
      let expo : Int :=
        match s4 with
        | e :: rest =>
          if e = 'e' ∨ e = 'E' then
            let (esgn, r2) : Int × List Char :=
              match rest with
              | '-' :: r => (-1, r)
              | '+' :: r => (1, r)
              | _ => (1, rest)
            let ed := r2.takeWhile Char.isDigit
            if ed = [] then 0 else esgn * (digitsToNat ed : Int)
          else 0
        | [] => 0
      if expo ≥ 0 then some (dnorm (mant * 10 ^ expo.toNat) fp.length)
      else some (dnorm mant (fp.length + (-expo).toNat))

/-- JS number-to-string conversion for canonical decimals (what the exporter
prints; JS exponent notation for extreme magnitudes is outside the model). -/
def DNum.toJsString (x : DNum) : List Char :=
  let sign : List Char := if x.m < 0 then ['-'] else []
  let mm := x.m.natAbs
  if x.e = 0 then sign ++ Nat.toDigits 10 mm
  else
    let ip := mm / 10 ^ x.e
    let fp := mm % 10 ^ x.e
    let fd := Nat.toDigits 10 fp
    sign ++ Nat.toDigits 10 ip ++ '.' :: (List.replicate (x.e - fd.length) '0' ++ fd)

/- ===== source embedding: escaping (gift2json.js lines 79-125) ===== -/

/-- `escapedcharPre` of the source: mask `\\`, replace each escaped reserved
character by its `&&nnn;` placeholder (in `ESC_PRE` insertion order), then
restore single backslashes. -/
def escapedcharPre (str : List Char) : List Char :=
  if str = [] then str
  else
    let s1 := replaceAll [bs, bs] "&&092;".data str
    let s2 := replaceAll [bs, ':'] "&&058;".data s1
    let s3 := replaceAll [bs, '#'] "&&035;".data s2
    let s4 := replaceAll [bs, '='] "&&061;".data s3
    let s5 := replaceAll [bs, lb] "&&123;".data s4
    let s6 := replaceAll [bs, rb] "&&125;".data s5
    let s7 := replaceAll [bs, '~'] "&&126;".data s6
    let s8 := replaceAll [bs, 'n'] "&&010".data s7
    replaceAll "&&092;".data [bs] s8

/-- `escapedcharPost` of the source: replace each placeholder by
`key.slice(1)` of the corresponding `ESC_PRE` entry.  Note the source derives
the `&&010` replacement mechanically as `'\\n'.slice(1)`, i.e. the letter `n`,
not a newline. -/
def escapedcharPost (str : List Char) : List Char :=
  if str = [] then str
  else
    let s1 := replaceAll "&&058;".data [':'] str
    let s2 := replaceAll "&&035;".data ['#'] s1
    let s3 := replaceAll "&&061;".data ['='] s2
    let s4 := replaceAll "&&123;".data [lb] s3
    let s5 := replaceAll "&&125;".data [rb] s4
    let s6 := replaceAll "&&126;".data ['~'] s5
    replaceAll "&&010".data ['n'] s6

/-- `repchar` of the source: escape reserved characters when exporting and
strip carriage returns. -/
def repchar (text : List Char) : List Char :=
  let t1 := replaceAll [bs] [bs, bs] text
  let t2 := replaceAll ['#'] [bs, '#'] t1
  let t3 := replaceAll ['='] [bs, '='] t2
  let t4 := replaceAll ['~'] [bs, '~'] t3
  let t5 := replaceAll [lb] [bs, lb] t4
  let t6 := replaceAll [rb] [bs, rb] t5
  let t7 := replaceAll [':'] [bs, ':'] t6
  let t8 := replaceAll [lf] [bs, 'n'] t7
  replaceAll [cr] [] t8

example : escapedcharPre "a\\:b".data = "a&&058;b".data := by decide
example : escapedcharPost "a&&058;b".data = "a:b".data := by decide
example : repchar "a:b".data = "a\\:b".data := by decide
example : escapedcharPost (escapedcharPre (repchar "a:b".data)) = "a:b".data := by decide
example : escapedcharPost (escapedcharPre (repchar [lf])) = "n".data := by decide

/- ===== source embedding: formats and text spans (lines 35-62, 127-145) ===== -/

inductive Fmt
  | moodle
  | html
  | plain
  | markdown
deriving DecidableEq

def toLowerStr (s : List Char) : List Char := s.map Char.toLower

/-- `formatNameToConst`: note it returns the (truthy) default `moodle` for an
unrecognized name, never a falsy value. -/
def formatNameToConst (name : List Char) : Fmt :=
  if name = [] then .moodle
  else
    let n := toLowerStr name
    if n = "moodle".data then .moodle
    else if n = "html".data then .html
    else if n = "plain".data then .plain
    else if n = "markdown".data then .markdown
    else .moodle

def formatConstToName : Fmt → List Char
  | .html => "html".data
  | .plain => "plain".data
  | .markdown => "markdown".data
  | .moodle => "moodle".data

structure TWF where
  text : List Char
  format : Fmt
deriving DecidableEq

/-- `parseTextWithFormat`.  The JS guard `if (fmtConst)` after
`formatNameToConst` is always taken, because every `FORMAT` constant is a
non-empty (truthy) string — so any `[...]`-tag with `close > 0` is consumed. -/
def parseTextWithFormat (text : List Char) (defaultFormat : Fmt) : TWF :=
  if text = [] then ⟨[], defaultFormat⟩
  else
    let r : TWF :=
      if text.head? = some '[' then
        let close := jsIndexOf text ']'
        if close > 0 then
          ⟨jsSliceFrom text (close + 1), formatNameToConst (jsSlice text 1 close)⟩
        else ⟨[], defaultFormat⟩
      else ⟨[], defaultFormat⟩
    let rt := if r.text = [] then text else r.text
    ⟨escapedcharPost (trim rt), r.format⟩

/- ===== source embedding: comment/weight grammar (lines 160-201) ===== -/

def splitTrueFalseComment (answer : List Char) (defaultFormat : Fmt) : TWF × TWF × TWF :=
  let bits := (jsSplitChar '#' answer).take 3
  let ans := parseTextWithFormat (trim (bits.getD 0 [])) defaultFormat
  let wrong := if bits.length > 1 then parseTextWithFormat (trim (bits.getD 1 [])) defaultFormat
               else ⟨[], defaultFormat⟩
  let right := if bits.length > 2 then parseTextWithFormat (trim (bits.getD 2 [])) defaultFormat
               else ⟨[], defaultFormat⟩
  (ans, wrong, right)

def commentParser (answer : List Char) (defaultFormat : Fmt) : TWF × TWF :=
  let bits := (jsSplitChar '#' answer).take 2
  let ans := parseTextWithFormat (trim (bits.getD 0 [])) defaultFormat
  let feedback := if bits.length > 1 then parseTextWithFormat (trim (bits.getD 1 [])) defaultFormat
                  else ⟨[], defaultFormat⟩
  (ans, feedback)

structure WeightRes where
  weight : Option DNum
  rest : List Char
deriving DecidableEq

/-- `parseWeight`: deterministic transcription of the anchored regex
`^%\-?([0-9]{1,2})(?:\.([0-9]*))?%`.  A maximal run of 3 or more digits can
never match (after backtracking a digit always follows the group), so the
digit run must have length 1 or 2.  As in the source, the optional minus sign
is matched but *not captured*: the computed weight uses only the digits. -/
def parseWeight (answerStr : List Char) : WeightRes :=
  match answerStr with
  | '%' :: r0 =>
    let r1 : List Char := match r0 with | '-' :: r => r | _ => r0
    let ds := r1.takeWhile Char.isDigit
    if ds.length = 0 ∨ ds.length > 2 then ⟨none, answerStr⟩
    else
      match r1.drop ds.length with
      | '.' :: r3 =>
        let fs := r3.takeWhile Char.isDigit
        match r3.drop fs.length with
        | '%' :: r4 =>
          let numStr := if fs ≠ [] then ds ++ '.' :: fs else ds
          ⟨some (((jsParseFloat numStr).getD .zero).div100), r4⟩
        | _ => ⟨none, answerStr⟩
      | '%' :: r4 => ⟨some (((jsParseFloat ds).getD .zero).div100), r4⟩
      | _ => ⟨none, answerStr⟩
  | _ => ⟨none, answerStr⟩

def isCntrl (c : Char) : Bool := c.toNat < 32 || c.toNat == 127

def idValid (c : Char) : Bool := c != ']' && !(isCntrl c)

def tagValid (c : Char) : Bool :=
  c != ']' && c != ltc && c != gtc && c != Char.ofNat 96 && !(isCntrl c)

/-- One maximal run of content units (`\]` or a single allowed character) for
the `[id:...]` / `[tag:...]` regexes; returns the raw capture and the rest.
(The regex engine's backtracking on a trailing lone backslash-bracket is not
modelled; no comment block in this development exercises it.) -/
def grabUnits (valid : Char → Bool) : List Char → List Char × List Char
  | [] => ([], [])
  | [a] => if valid a then ([a], []) else ([], [a])
  | a :: b :: r =>
    if a = bs ∧ b = ']' then
      let (u, rest) := grabUnits valid r
      (bs :: ']' :: u, rest)
    else if valid a then
      let (u, rest) := grabUnits valid (b :: r)
      (a :: u, rest)
    else ([], a :: b :: r)

def findIdGo : List Char → List Char
  | [] => []
  | c :: r =>
    if ("[id:".data).isPrefixOf (c :: r) then
      let (u, rest) := grabUnits idValid ((c :: r).drop 4)
      if u ≠ [] ∧ rest.head? = some ']' then trim (replaceAll [bs, ']'] [']'] u)
      else findIdGo r
    else findIdGo r

def findTagsGo : Nat → List Char → List (List Char)
  | _, [] => []
  | 0, _ => []
  | fuel + 1, c :: r =>
    if ("[tag:".data).isPrefixOf (c :: r) then
      let (u, rest) := grabUnits tagValid ((c :: r).drop 5)
      if u ≠ [] ∧ rest.head? = some ']' then
        trim (replaceAll [bs, ']'] [']'] u) :: findTagsGo fuel (rest.drop 1)
      else findTagsGo fuel r
    else findTagsGo fuel r

/-- `extractIdnumberAndTags` (first `[id:...]` match, all `[tag:...]` matches). -/
def extractIdnumberAndTags (commentBlock : List Char) : List Char × List (List Char) :=
  (findIdGo commentBlock, findTagsGo commentBlock.length commentBlock)

/- ===== source embedding: data model ===== -/

deriving instance DecidableEq for Except

/-- The error taxonomy: one constructor per `throw` site of the source, each
carrying the source's message text where it is distinguishing. -/
inductive GiftError
  | braceMismatch (text : List Char)
  | insufficientAlternatives (msg : List Char)
  | missingSeparator
  | malformedNumeric (msg : List Char)
  | unsupportedQtype (qtype : List Char)
deriving DecidableEq

/-- A numerical `answer` field: a finite number, `NaN` (what JS stores for a
bare `*` part), or the literal string `"*"` of the wildcard feedback entry. -/
inductive NumV
  | num (d : DNum)
  | nan
  | star
deriving DecidableEq

/-- A numerical `tolerance` field: a number, or the literal `''` stored on the
wildcard feedback entry. -/
inductive TolV
  | num (d : DNum)
  | emptyStr
deriving DecidableEq

structure MCAnswer where
  answer : List Char
  answerformat : Fmt
  fraction : DNum
  feedback : List Char
  feedbackformat : Fmt
deriving DecidableEq

structure SAAnswer where
  answer : List Char
  fraction : DNum
  feedback : List Char
  feedbackformat : Fmt
deriving DecidableEq

structure NumAnswer where
  answer : NumV
  tolerance : TolV
  fraction : DNum
  feedback : List Char
  feedbackformat : Fmt
deriving DecidableEq

structure SubQ where
  questiontext : List Char
  questiontextformat : Fmt
  answertext : List Char
deriving DecidableEq

/-- Variant-specific fields of a question.  Constant configuration fields the
source attaches (essay editor settings, description `defaultmark`/`length`,
truefalse `penalty`) are either elided or carried as the constant the source
writes; no claim depends on them beyond their constancy. -/
inductive QPayload
  | plain
  | categoryP (category : List Char)
  | descriptionP
  | essayP
  | multichoiceP (single : Bool) (answernumbering : List Char) (answers : List MCAnswer)
  | matchP (subquestions : List SubQ)
  | truefalseP (correctanswer : Bool) (feedbacktrue feedbackfalse : TWF) (penalty : DNum)
  | shortanswerP (answers : List SAAnswer)
  | numericalP (answers : List NumAnswer)
deriving DecidableEq

structure Question where
  id : Option (List Char) := none
  name : List Char := []
  qtype : List Char := []
  questiontext : List Char := []
  questiontextformat : Fmt := .moodle
  generalfeedback : List Char := []
  generalfeedbackformat : Fmt := .moodle
  idnumber : List Char := []
  tags : List (List Char) := []
  payload : QPayload := .plain
deriving DecidableEq

/- ===== source embedding: classification and brace extraction (lines 264-337) ===== -/

/-- The qtype decision of `parseQuestion` (lines 319-337), as a function of
the feedback-stripped answer span. -/
def classifyAnswer (answertext : List Char) : List Char :=
  if answertext = [] then "essay".data
  else if answertext.head? = some '#' then "numerical".data
  else if '~' ∈ answertext then "multichoice".data
  else if '=' ∈ answertext ∧ containsStr "->".data answertext then "match".data
  else
    let tfcheck :=
      trim (if '#' ∈ answertext then ((jsSplitChar '#' answertext).take 1).getD 0 []
            else answertext)
    let tfU := tfcheck.map Char.toUpper
    if tfU = "T".data ∨ tfU = "TRUE".data ∨ tfU = "F".data ∨ tfU = "FALSE".data
    then "truefalse".data
    else "shortanswer".data

structure BraceOut where
  description : Bool
  questiontext : List Char
  answertext : List Char
deriving DecidableEq

/-- The regex test `/\}\s*$/.test(text)`. -/
def endsWithRb (s : List Char) : Bool := (dropR isWs s).getLast? = some rb

/-- Lines 264-286 of `parseQuestion`: locate first `{` / last `}`, decide
description vs. brace error vs. answer span, and build the question text. -/
def braceSplit (text : List Char) : Except GiftError BraceOut :=
  let answerStart := jsIndexOf text lb
  let answerFinish := jsLastIndexOf text rb
  if answerStart = -1 ∧ answerFinish = -1 then
    .ok ⟨true, text, []⟩
  else if answerStart = -1 ∨ answerFinish = -1 ∨ answerFinish < answerStart then
    .error (.braceMismatch (escapedcharPost text))
  else
    let answertext := trim (jsSlice text (answerStart + 1) answerFinish)
    let questiontext :=
      if endsWithRb text then
        jsSlice text 0 answerStart ++ jsSliceFrom text (answerFinish + 1)
      else
        jsSlice text 0 answerStart ++ "_____".data ++ jsSliceFrom text (answerFinish + 1)
    .ok ⟨false, questiontext, answertext⟩

/- ===== source embedding: per-variant answer parsers (lines 339-436) ===== -/

def mcOne (fmt : Fmt) (part : List Char) : MCAnswer :=
  let (weight, rest) : DNum × List Char :=
    if part.head? = some '=' then (.one, part.drop 1)
    else
      match parseWeight part with
      | ⟨some w, r⟩ => (w, r)
      | ⟨none, _⟩ => (.zero, part)
  let (ans, feedback) := commentParser rest fmt
  ⟨ans.text, ans.format, weight, feedback.text, feedback.format⟩

def parseMultichoice (fmt : Fmt) (answertext : List Char) : Except GiftError QPayload :=
  let single := decide ('=' ∈ answertext)
  let normalized := replaceAll ['='] ['~', '='] answertext
  let parts := ((jsSplitChar '~' normalized).map trim).filter (· ≠ [])
  if parts.length < 2 then
    .error (.insufficientAlternatives "Multiple choice requires at least 2 answers".data)
  else .ok (.multichoiceP single "abc".data (parts.map (mcOne fmt)))

def matchPairs (fmt : Fmt) : List (List Char) → Except GiftError (List SubQ)
  | [] => .ok []
  | p :: r =>
    let marker := jsIndexOfStr p "->".data
    if marker = -1 then .error .missingSeparator
    else
      let left := jsSlice p 0 marker
      let right := trim (jsSliceFrom p (marker + 2))
      let leftParsed := parseTextWithFormat left fmt
      match matchPairs fmt r with
      | .error e => .error e
      | .ok rest => .ok (⟨leftParsed.text, leftParsed.format, escapedcharPost right⟩ :: rest)

def parseMatch (fmt : Fmt) (answertext : List Char) : Except GiftError QPayload :=
  let parts := ((jsSplitChar '=' answertext).map trim).filter (· ≠ [])
  if parts.length < 2 then
    .error (.insufficientAlternatives "Matching requires at least 2 pairs".data)
  else (matchPairs fmt parts).map .matchP

def parseTruefalse (fmt : Fmt) (answertext : List Char) : QPayload :=
  let tfc := splitTrueFalseComment answertext fmt
  let up := tfc.1.text.map Char.toUpper
  let isTrue := up = "T".data ∨ up = "TRUE".data
  .truefalseP (decide isTrue) (if isTrue then tfc.2.2 else tfc.2.1)
    (if isTrue then tfc.2.1 else tfc.2.2) .one

def saOne (fmt : Fmt) (p : List Char) : SAAnswer :=
  let (weight, rest) : DNum × List Char :=
    match parseWeight p with
    | ⟨some w, r⟩ => (w, r)
    | ⟨none, _⟩ => (.one, p)
  let (ans, fb) := commentParser rest fmt
  ⟨ans.text, weight, fb.text, fb.format⟩

def parseShortanswer (fmt : Fmt) (answertext : List Char) : Except GiftError QPayload :=
  let parts := ((jsSplitChar '=' answertext).map trim).filter (· ≠ [])
  if parts = [] then
    .error (.insufficientAlternatives "Shortanswer requires at least 1 answer".data)
  else .ok (.shortanswerP (parts.map (saOne fmt)))

/-- Lines 410-424: interpretation of one numerical answer token
(`a..b` range, `a:t` tolerance pair, bare number, or `*`). -/
def parseNumValue (raw : List Char) : Except GiftError (NumV × DNum) :=
  if containsStr "..".data raw then
    let nums := (splitDD raw).map (fun s => jsParseFloat (trim s))
    match nums.getD 0 none, nums.getD 1 none with
    | some mn, some mx => .ok (.num ((mx.add mn).half), mx.sub ((mx.add mn).half))
    | _, _ => .error (.malformedNumeric "Numerical range must be numbers".data)
  else if ':' ∈ raw then
    let idx := jsIndexOf raw ':'
    match jsParseFloat (trim (jsSlice raw 0 idx)),
          jsParseFloat (trim (jsSliceFrom raw (idx + 1))) with
    | some a, some t => .ok (.num a, t)
    | _, _ => .error (.malformedNumeric "Numerical answer and tolerance must be numbers".data)
  else
    match jsParseFloat (trim raw) with
    | some a => .ok (.num a, .zero)
    | none =>
      if trim raw = "*".data then .ok (.nan, .zero)
      else .error (.malformedNumeric "Numerical answer must be a number".data)

def numOne (fmt : Fmt) (p : List Char) : Except GiftError NumAnswer :=
  let (weight, rest) : DNum × List Char :=
    match parseWeight p with
    | ⟨some w, r⟩ => (w, r)
    | ⟨none, _⟩ => (.one, p)
  let (ansParsed, fb) := commentParser rest fmt
  match parseNumValue ansParsed.text with
  | .error e => .error e
  | .ok (a, tol) => .ok ⟨a, .num tol, weight, fb.text, fb.format⟩

def numLoop (fmt : Fmt) : List (List Char) → Except GiftError (List NumAnswer)
  | [] => .ok []
  | p :: r =>
    match numOne fmt p with
    | .error e => .error e
    | .ok a =>
      match numLoop fmt r with
      | .error e => .error e
      | .ok l => .ok (a :: l)

/-- Lines 394-431: the `numerical` case of `parseQuestion`.  The leading `#`
is dropped; everything from the first `~` on becomes the trailing wildcard
feedback entry. -/
def parseNumericalAnswers (fmt : Fmt) (answertext : List Char) : Except GiftError (List NumAnswer) :=
  let body0 := jsSliceFrom answertext 1
  let tpos := jsIndexOf body0 '~'
  let body := if tpos ≠ -1 then jsSlice body0 0 tpos else body0
  let wrongfeedback := if tpos ≠ -1 then jsSliceFrom body0 tpos else []
  let parts := ((jsSplitChar '=' body).map trim).filter (· ≠ [])
  if parts = [] then .error (.insufficientAlternatives "Numerical requires answers".data)
  else
    match numLoop fmt parts with
    | .error e => .error e
    | .ok l =>
      if wrongfeedback ≠ [] then
        let wf := commentParser wrongfeedback fmt
        .ok (l ++ [⟨.star, .emptyStr, .zero, wf.2.text, wf.2.format⟩])
      else .ok l

/- ===== source embedding: parseQuestion / parseGift (lines 206-436) ===== -/

def parseQuestion (lines : List (List Char)) : Except GiftError (Option Question) :=
  let comments := lines.foldl
    (fun acc ln =>
      let s := trim ln
      if ("//".data).isPrefixOf s then acc ++ s ++ [lf] else acc) []
  let work := lines.map (fun ln => if ("//".data).isPrefixOf (trim ln) then [' '] else ln)
  let text0 := trim (List.intercalate [lf] work)
  if text0 = [] then .ok none
  else
    let text1 := escapedcharPre text0
    if ("$CATEGORY:".data).isPrefixOf text1 then
      .ok (some { qtype := "category".data,
                  payload := .categoryP (trim ((text1.drop 10).dropWhile isWs)) })
    else
      let np : List Char × List Char :=
        if ("::".data).isPrefixOf text1 then
          let pos := jsIndexOfStrFrom text1 "::".data 2
          if pos ≠ -1 then
            let nm := jsSlice text1 2 pos
            ((if nm ≠ [] then escapedcharPost nm else []), trim (jsSliceFrom text1 (pos + 2)))
          else ([], text1)
        else ([], text1)
      match braceSplit np.2 with
      | .error e => .error e
      | .ok bo =>
        let gfidx := jsLastIndexOfStr bo.answertext "####".data
        let generalfeedback := if gfidx ≠ -1 then jsSliceFrom bo.answertext (gfidx + 4) else []
        let answertext := if gfidx ≠ -1 then trim (jsSlice bo.answertext 0 gfidx) else bo.answertext
        let qtP := parseTextWithFormat bo.questiontext .moodle
        let gfP := parseTextWithFormat generalfeedback qtP.format
        let name1 :=
          if np.1 = [] then
            let d := (stripTags qtP.text).take 30
            if d = [] then "Question".data else d
          else np.1
        let meta := extractIdnumberAndTags comments
        let base : Question :=
          { name := name1, questiontext := qtP.text, questiontextformat := qtP.format,
            generalfeedback := gfP.text, generalfeedbackformat := gfP.format,
            idnumber := meta.1, tags := meta.2 }
        if bo.description then
          .ok (some { base with qtype := "description".data, payload := .descriptionP })
        else if answertext = [] then
          .ok (some { base with qtype := "essay".data, payload := .essayP })
        else
          let qt := classifyAnswer answertext
          if qt = "numerical".data then
            (parseNumericalAnswers qtP.format answertext).map
              (fun l => some { base with qtype := qt, payload := .numericalP l })
          else if qt = "multichoice".data then
            (parseMultichoice qtP.format answertext).map
              (fun p => some { base with qtype := qt, payload := p })
          else if qt = "match".data then
            (parseMatch qtP.format answertext).map
              (fun p => some { base with qtype := qt, payload := p })
          else if qt = "truefalse".data then
            .ok (some { base with qtype := qt, payload := parseTruefalse qtP.format answertext })
          else
            (parseShortanswer qtP.format answertext).map
              (fun p => some { base with qtype := qt, payload := p })

def segGo : List (List Char) → List (List Char) → List (List (List Char))
  | [], buf => if buf = [] then [] else [buf.reverse]
  | ln :: rest, buf =>
    if ln.all isWs then
      if buf = [] then segGo rest [] else buf.reverse :: segGo rest []
    else segGo rest (ln :: buf)

/-- The blank-line block segmentation of `parseGift` (lines 217-225). -/
def segmentBlocks (ls : List (List Char)) : List (List (List Char)) := segGo ls []

/-- The per-block loop of `parseGift`: parse each block in order, keep the
non-`null` results, propagate the first error. -/
def parseBlocks : List (List (List Char)) → Except GiftError (List Question)
  | [] => .ok []
  | b :: rest =>
    match parseQuestion b with
    | .error e => .error e
    | .ok none => parseBlocks rest
    | .ok (some q) =>
      match parseBlocks rest with
      | .error e => .error e
      | .ok qs => .ok (q :: qs)

def parseGift (input : List Char) : Except GiftError (List Question) :=
  parseBlocks (segmentBlocks (jsSplitChar lf (normNewlines input)))

example :
    parseGift "::Q1::Capital of France \x7b=Paris\x7d".data =
      .ok [{ name := "Q1".data, qtype := "shortanswer".data,
             questiontext := "Capital of France".data,
             payload := .shortanswerP [⟨"Paris".data, .one, [], .moodle⟩] }] := by decide

example :
    parseGift "Is the sky blue? \x7bT\x7d".data =
      .ok [{ name := "Is the sky blue?".data, qtype := "truefalse".data,
             questiontext := "Is the sky blue?".data,
             payload := .truefalseP true ⟨[], .moodle⟩ ⟨[], .moodle⟩ .one }] := by decide

example :
    (parseGift "2+2? \x7b=4 ~3 ~5\x7d".data).map (fun qs => qs.map Question.payload) =
      .ok [.multichoiceP true "abc".data
            [⟨"4".data, .moodle, .one, [], .moodle⟩,
             ⟨"3".data, .moodle, .zero, [], .moodle⟩,
             ⟨"5".data, .moodle, .zero, [], .moodle⟩]] := by decide

example :
    (parseGift "Pi? \x7b#3.14159:0.00001\x7d".data).map (fun qs => qs.map Question.payload) =
      .ok [.numericalP [⟨.num ⟨314159, 5⟩, .num ⟨1, 5⟩, .one, [], .moodle⟩]] := by decide

example :
    parseGift "Q \x7b".data =
      .error (.braceMismatch "Q \x7b".data) := by decide

/- ===== source embedding: exporter (lines 441-567) ===== -/

/-- `writeQuestionText` (leading format tag when the format differs from the
surrounding default, then escaping).  The JS truthiness test `format &&` is
always true: every `FORMAT` constant is a non-empty string. -/
def writeQuestionText (text : List Char) (format : Fmt) (defaultFormat : Fmt) : List Char :=
  (if text ≠ [] ∧ format ≠ defaultFormat
   then '[' :: formatConstToName format ++ [']'] else []) ++ repchar text

def writeName (name : List Char) : List Char := "::".data ++ repchar name ++ "::".data

/-- Accessors modelling the exporter's dynamic reads (`q.answers || []`,
`q.single === 1`, `q.category` on a record that may lack the field, ...). -/
def mcSingle (q : Question) : Bool :=
  match q.payload with
  | .multichoiceP s _ _ => s
  | _ => false

def mcAnswers (q : Question) : List MCAnswer :=
  match q.payload with
  | .multichoiceP _ _ a => a
  | _ => []

def saAnswers (q : Question) : List SAAnswer :=
  match q.payload with
  | .shortanswerP a => a
  | _ => []

def numAnswers (q : Question) : List NumAnswer :=
  match q.payload with
  | .numericalP a => a
  | _ => []

def subQs (q : Question) : List SubQ :=
  match q.payload with
  | .matchP a => a
  | _ => []

def tfCorrect (q : Question) : Bool :=
  match q.payload with
  | .truefalseP c _ _ _ => c
  | _ => false

def tfFeedbackTrue (q : Question) : Option TWF :=
  match q.payload with
  | .truefalseP _ ft _ _ => some ft
  | _ => none

def tfFeedbackFalse (q : Question) : Option TWF :=
  match q.payload with
  | .truefalseP _ _ ff _ => some ff
  | _ => none

/-- `q.category` read on a non-category payload is `undefined`, which the JS
template string renders as the text `undefined`. -/
def categoryOf (q : Question) : List Char :=
  match q.payload with
  | .categoryP c => c
  | _ => "undefined".data

def writeIdnumberAndTags (q : Question) : List Char :=
  if q.qtype = "category".data then []
  else
    let bits : List (List Char) :=
      (if q.idnumber ≠ [] then ["[id:".data ++ replaceAll [']'] [bs, ']'] q.idnumber ++ "]".data]
       else []) ++
      q.tags.map (fun t => "[tag:".data ++ replaceAll [']'] [bs, ']'] t ++ "]".data)
    if bits ≠ [] then "// ".data ++ List.intercalate " ".data bits ++ [lf] else []

def writeGeneralFeedback (q : Question) (indent : List Char) : List Char :=
  let gf := writeQuestionText q.generalfeedback q.generalfeedbackformat q.questiontextformat
  if gf = [] then []
  else if indent ≠ [] then indent ++ "####".data ++ gf ++ [lf]
  else "####".data ++ gf

/-- The string the numerical writer interpolates for `ans.answer`. -/
def numAnswerText : NumV → List Char
  | .num d => d.toJsString
  | .nan => "NaN".data
  | .star => "*".data

/-- `Number(ans.tolerance)`: a number stays itself, the wildcard's `''`
converts to `0`. -/
def tolToString : TolV → List Char
  | .num d => d.toJsString
  | .emptyStr => "0".data

/-- `writeOne`.  The source first takes a deep JSON copy (`clone`) of the
question; on the pure values of this model `clone` is the identity, so the
copy is elided (see the discussion of the frame-effect claim). -/
def writeOne (question : Question) : Except GiftError (List Char) :=
  let q := question
  let header := "// question: ".data ++ (q.id.getD []) ++ "  name: ".data ++ q.name ++ [lf]
                ++ writeIdnumberAndTags q
  if q.qtype = "category".data then
    .ok (header ++ "$CATEGORY: ".data ++ categoryOf q ++ [lf] ++ [lf])
  else if q.qtype = "description".data then
    .ok (header ++ writeName q.name
      ++ writeQuestionText q.questiontext q.questiontextformat .moodle ++ [lf])
  else if q.qtype = "essay".data then
    .ok (header ++ writeName q.name
      ++ writeQuestionText q.questiontext q.questiontextformat .moodle
      ++ [lb] ++ writeGeneralFeedback q [] ++ [rb] ++ [lf] ++ [lf])
  else if q.qtype = "truefalse".data then
    let isTrue := tfCorrect q
    let rightfb := if isTrue then tfFeedbackTrue q else tfFeedbackFalse q
    let wrongfb := if isTrue then tfFeedbackFalse q else tfFeedbackTrue q
    let right := writeQuestionText ((rightfb.map TWF.text).getD [])
      ((rightfb.map TWF.format).getD q.questiontextformat) q.questiontextformat
    let wrong := writeQuestionText ((wrongfb.map TWF.text).getD [])
      ((wrongfb.map TWF.format).getD q.questiontextformat) q.questiontextformat
    .ok (header ++ writeName q.name
      ++ writeQuestionText q.questiontext q.questiontextformat .moodle
      ++ [lb] ++ repchar (if isTrue then "TRUE".data else "FALSE".data)
      ++ (if wrong ≠ [] then '#' :: wrong else if right ≠ [] then ['#'] else [])
      ++ (if right ≠ [] then '#' :: right else [])
      ++ writeGeneralFeedback q [] ++ [rb] ++ [lf] ++ [lf])
  else if q.qtype = "multichoice".data then
    let body := (mcAnswers q).foldl
      (fun acc ans =>
        let lead :=
          if ans.fraction = .one ∧ mcSingle q then "=".data
          else if ans.fraction = .zero then "~".data
          else '~' :: '%' :: (ans.fraction.mul100).toJsString ++ ['%']
        let ansText := writeQuestionText ans.answer ans.answerformat q.questiontextformat
        let fbPart :=
          if ans.feedback ≠ [] then
            '#' :: writeQuestionText ans.feedback ans.feedbackformat q.questiontextformat
          else []
        acc ++ '\t' :: lead ++ ansText ++ fbPart ++ [lf]) []
    .ok (header ++ writeName q.name
      ++ writeQuestionText q.questiontext q.questiontextformat .moodle
      ++ [lb] ++ [lf] ++ body ++ writeGeneralFeedback q ['\t'] ++ [rb] ++ [lf] ++ [lf])
  else if q.qtype = "shortanswer".data then
    let body := (saAnswers q).foldl
      (fun acc ans =>
        let fb := writeQuestionText ans.feedback ans.feedbackformat q.questiontextformat
        acc ++ '\t' :: '=' :: '%' :: (ans.fraction.mul100).toJsString ++ '%' :: repchar ans.answer
           ++ '#' :: fb ++ [lf]) []
    .ok (header ++ writeName q.name
      ++ writeQuestionText q.questiontext q.questiontextformat .moodle
      ++ [lb] ++ [lf] ++ body ++ writeGeneralFeedback q ['\t'] ++ [rb] ++ [lf] ++ [lf])
  else if q.qtype = "numerical".data then
    let body := (numAnswers q).foldl
      (fun acc ans =>
        let fb := writeQuestionText ans.feedback ans.feedbackformat q.questiontextformat
        if ans.answer ≠ .star then
          acc ++ '\t' :: '=' :: '%' :: (ans.fraction.mul100).toJsString ++ '%'
             :: numAnswerText ans.answer ++ ':' :: tolToString ans.tolerance ++ '#' :: fb ++ [lf]
        else acc ++ '\t' :: '~' :: '#' :: fb ++ [lf]) []
    .ok (header ++ writeName q.name
      ++ writeQuestionText q.questiontext q.questiontextformat .moodle
      ++ [lb, '#'] ++ [lf] ++ body ++ writeGeneralFeedback q ['\t'] ++ [rb] ++ [lf] ++ [lf])
  else if q.qtype = "match".data then
    let body := (subQs q).foldl
      (fun acc sq =>
        let left := writeQuestionText sq.questiontext sq.questiontextformat q.questiontextformat
        acc ++ '\t' :: '=' :: left ++ " -> ".data ++ repchar sq.answertext ++ [lf]) []
    .ok (header ++ writeName q.name
      ++ writeQuestionText q.questiontext q.questiontextformat .moodle
      ++ [lb] ++ [lf] ++ body ++ writeGeneralFeedback q ['\t'] ++ [rb] ++ [lf] ++ [lf])
  else .error (.unsupportedQtype q.qtype)

def exportBlocks : List Question → Except GiftError (List (List Char))
  | [] => .ok []
  | q :: rest =>
    match writeOne q with
    | .error e => .error e
    | .ok s =>
      match exportBlocks rest with
      | .error e => .error e
      | .ok ss => .ok (s :: ss)

/-- `exportGift`: write every question (aborting on the first failure) and
join the blocks with newlines. -/
def exportGift (questions : List Question) : Except GiftError (List Char) :=
  (exportBlocks questions).map (List.intercalate [lf])

example :
    (parseGift "Q \x7b=Paris\x7d".data).bind exportGift =
      .ok "// question:   name: Q\n::Q::Q\x7b\n\t=%100%Paris#\n\x7d\n\n".data := by decide

/- ===== spec-side definitions (for refinement comparisons) ===== -/

/-- Classification list of spec §4.3, transcribed rule by rule: empty body →
essay; body starting with `#` → numerical; body containing `~` → multichoice;
body containing both `=` and `->` → match; feedback-truncated, case-folded,
trimmed body among T/TRUE/F/FALSE → truefalse; otherwise shortanswer. -/
def specClassify (body : List Char) : List Char :=
  if body = [] then "essay".data
  else if ("#".data).isPrefixOf body then "numerical".data
  else if '~' ∈ body then "multichoice".data
  else if '=' ∈ body ∧ containsStr "->".data body then "match".data
  else if (trim (body.takeWhile (fun x => x ≠ '#'))).map Char.toUpper ∈
      ["T".data, "TRUE".data, "F".data, "FALSE".data] then "truefalse".data
  else "shortanswer".data

/- ===== basic lemmas about the string primitives ===== -/

theorem getD_take_one (l : List (List Char)) : (l.take 1).getD 0 [] = l.getD 0 [] := by
  cases l <;> rfl

theorem jsSplitChar_ne_nil (c : Char) (s : List Char) : jsSplitChar c s ≠ [] := by
  cases s with
  | nil => simp [jsSplitChar]
  | cons a r =>
    unfold jsSplitChar
    cases h : jsSplitChar c r with
    | nil => simp
    | cons g gs => by_cases hac : a = c <;> simp [hac]

theorem jsSplitChar_head (c : Char) (s : List Char) :
    (jsSplitChar c s).getD 0 [] = s.takeWhile (fun x => x ≠ c) := by
  induction s with
  | nil => rfl
  | cons a r ih =>
    unfold jsSplitChar
    cases h : jsSplitChar c r with
    | nil => exact absurd h (jsSplitChar_ne_nil c r)
    | cons g gs =>
      rw [h] at ih
      by_cases hac : a = c
      · subst hac; simp [List.takeWhile_cons]
      · simp only [if_neg hac, List.takeWhile_cons, List.getD_cons_zero] at *
        simp [hac, ih]

theorem takeWhile_ne_of_not_mem {c : Char} {s : List Char} (h : c ∉ s) :
    s.takeWhile (fun x => x ≠ c) = s := by
  induction s with
  | nil => rfl
  | cons a r ih =>
    have ha : a ≠ c := fun hh => h (hh ▸ List.mem_cons_self a r)
    have hr : c ∉ r := fun hh => h (List.mem_cons_of_mem a hh)
    have hd : decide (a ≠ c) = true := by simp [ha]
    simp only [List.takeWhile_cons, hd, if_true, ih hr]

/- ===== C3 ===== -/

/-- C3: the question variant is decided from the feedback-stripped answer body
by exactly the spec's priority order (empty → essay, `#`-prefix → numerical,
`~` → multichoice, `=` and `->` → match, T/TRUE/F/FALSE (feedback-truncated,
case-folded, trimmed) → truefalse, else shortanswer); an earlier rule always
wins because both sides are the same ordered decision chain. -/
theorem classifyAnswer_eq_specClassify (a : List Char) :
    classifyAnswer a = specClassify a := by
  unfold classifyAnswer specClassify
  by_cases h0 : a = []
  · simp [h0]
  · rw [if_neg h0, if_neg h0]
    have hiff : a.head? = some '#' ↔ ("#".data).isPrefixOf a := by
      cases a with
      | nil => exact absurd rfl h0
      | cons c r =>
        show some c = some '#' ↔ _
        simp [List.isPrefixOf]
        constructor <;> (intro h; simp_all [eq_comm])
    by_cases h1 : a.head? = some '#'
    · rw [if_pos h1, if_pos (hiff.mp h1)]
    · rw [if_neg h1, if_neg (fun hh => h1 (hiff.mpr hh))]
      by_cases h2 : '~' ∈ a
      · rw [if_pos h2, if_pos h2]
      · rw [if_neg h2, if_neg h2]
        by_cases h3 : '=' ∈ a ∧ containsStr "->".data a
        · rw [if_pos h3, if_pos h3]
        · rw [if_neg h3, if_neg h3]
          have htf : (if '#' ∈ a then ((jsSplitChar '#' a).take 1).getD 0 [] else a)
              = a.takeWhile (fun x => x ≠ '#') := by
            by_cases h4 : '#' ∈ a
            · rw [if_pos h4, getD_take_one, jsSplitChar_head]
            · rw [if_neg h4, takeWhile_ne_of_not_mem h4]
          simp only [htf]
          have hoor :
              ((trim (a.takeWhile fun x => x ≠ '#')).map Char.toUpper = "T".data ∨
               (trim (a.takeWhile fun x => x ≠ '#')).map Char.toUpper = "TRUE".data ∨
               (trim (a.takeWhile fun x => x ≠ '#')).map Char.toUpper = "F".data ∨
               (trim (a.takeWhile fun x => x ≠ '#')).map Char.toUpper = "FALSE".data) ↔
              (trim (a.takeWhile fun x => x ≠ '#')).map Char.toUpper ∈
                ["T".data, "TRUE".data, "F".data, "FALSE".data] := by
            simp [List.mem_cons]
          by_cases h5 : (trim (a.takeWhile fun x => x ≠ '#')).map Char.toUpper ∈
              ["T".data, "TRUE".data, "F".data, "FALSE".data]
          · rw [if_pos (hoor.mpr h5), if_pos h5]
          · rw [if_neg (fun hh => h5 (hoor.mp hh)), if_neg h5]

/- ===== C1 ===== -/

/-- C1: parse/export/parse is *not* the identity on parse results.  On the
valid GIFT text `Q {=Paris}` the first parse yields the single answer
`Paris`, but the exporter renders its weight as `%100%`, which `parseWeight`
(1-2 digit percentages only) cannot read back, so the re-parse yields the
answer text `%100%Paris` instead. -/
theorem roundtrip_counterexample :
    ((parseGift "Q \x7b=Paris\x7d".data).bind fun qs => (exportGift qs).bind parseGift)
        ≠ parseGift "Q \x7b=Paris\x7d".data
    ∧ (parseGift "Q \x7b=Paris\x7d".data).map
        (fun qs => qs.map (fun q => (saAnswers q).map SAAnswer.answer))
        = .ok [["Paris".data]]
    ∧ ((parseGift "Q \x7b=Paris\x7d".data).bind fun qs => (exportGift qs).bind parseGift).map
        (fun qs => qs.map (fun q => (saAnswers q).map SAAnswer.answer))
        = .ok [["%100%Paris".data]] :=
  have hB : (parseGift "Q \x7b=Paris\x7d".data).map
      (fun qs => qs.map (fun q => (saAnswers q).map SAAnswer.answer))
      = .ok [["Paris".data]] := by decide
  have hA : ((parseGift "Q \x7b=Paris\x7d".data).bind fun qs => (exportGift qs).bind parseGift).map
      (fun qs => qs.map (fun q => (saAnswers q).map SAAnswer.answer))
      = .ok [["%100%Paris".data]] := by decide
  ⟨fun h => by rw [h, hB] at hA; exact absurd hA (by decide), hB, hA⟩

/- ===== C5 ===== -/

/-- C5: a span beginning with an *unrecognized* bracketed tag does **not**
keep its text: `parseTextWithFormat` consumes the tag (the JS guard
`if (fmtConst)` is always true because `formatNameToConst` returns the truthy
`'moodle'` for unknown names), so `[foo]bar` parses to text `bar`.  A
recognized tag is consumed and sets the format, and the resulting format is
always one of the four enumerated values (by the type of `Fmt`). -/
theorem parseTextWithFormat_unknown_tag_consumed :
    parseTextWithFormat "[foo]bar".data .moodle = ⟨"bar".data, .moodle⟩
    ∧ parseTextWithFormat "[html]x".data .moodle = ⟨"x".data, .html⟩ :=
  ⟨by decide, by decide⟩

/- ===== C6 ===== -/

/-- C6: the optional minus sign of a `%-w%` weight prefix is matched but not
captured, so the parsed weight of `%-50%` is `+0.5` (= `⟨5,1⟩`, i.e. `5/10`),
not `-0.5`. -/
theorem parseWeight_sign_dropped :
    parseWeight "%-50%x".data = ⟨some ⟨5, 1⟩, "x".data⟩
    ∧ (⟨5, 1⟩ : DNum).toQ = 1 / 2 :=
  ⟨by decide, by with_unfolding_all decide⟩

/- ===== index lemmas ===== -/

theorem jsIndexOfGo_neg_iff (c : Char) :
    ∀ (s : List Char) (i : Nat), jsIndexOfGo c s i = -1 ↔ c ∉ s
  | [], i => by simp [jsIndexOfGo]
  | a :: r, i => by
    unfold jsIndexOfGo
    by_cases hac : a = c
    · rw [if_pos hac]
      constructor
      · intro h; exact absurd h (by omega)
      · intro h; exact absurd (hac ▸ List.mem_cons_self a r) h
    · rw [if_neg hac, jsIndexOfGo_neg_iff c r (i + 1)]
      constructor
      · intro h hm
        rcases List.mem_cons.mp hm with h1 | h2
        · exact hac h1.symm
        · exact h h2
      · intro h hm; exact h (List.mem_cons_of_mem a hm)

theorem jsIndexOf_neg_iff (c : Char) (s : List Char) : jsIndexOf s c = -1 ↔ c ∉ s :=
  jsIndexOfGo_neg_iff c s 0

theorem jsIndexOfGo_mem (c : Char) :
    ∀ (s : List Char) (i : Nat), c ∈ s →
      ∃ n : Nat, jsIndexOfGo c s i = (n : Int) ∧ i ≤ n ∧ n < i + s.length
  | [], i => by intro h; exact absurd h (List.not_mem_nil c)
  | a :: r, i => by
    intro h
    unfold jsIndexOfGo
    by_cases hac : a = c
    · exact ⟨i, by rw [if_pos hac], le_refl i, by simp⟩
    · have hm : c ∈ r := by
        rcases List.mem_cons.mp h with h1 | h2
        · exact absurd h1.symm hac
        · exact h2
      obtain ⟨n, hn, hle, hlt⟩ := jsIndexOfGo_mem c r (i + 1) hm
      exact ⟨n, by rw [if_neg hac, hn], by omega, by simp; omega⟩

theorem jsIndexOf_mem (c : Char) (s : List Char) (h : c ∈ s) :
    ∃ n : Nat, jsIndexOf s c = (n : Int) ∧ n < s.length := by
  obtain ⟨n, hn, _, hlt⟩ := jsIndexOfGo_mem c s 0 h
  exact ⟨n, hn, by omega⟩

theorem jsLastIndexOfGo_not_mem (c : Char) :
    ∀ (s : List Char) (i : Nat) (best : Int), c ∉ s → jsLastIndexOfGo c s i best = best
  | [], i, best => fun _ => rfl
  | a :: r, i, best => by
    intro h
    unfold jsLastIndexOfGo
    have hac : ¬(a = c) := fun hh => h (hh ▸ List.mem_cons_self a r)
    rw [if_neg hac]
    exact jsLastIndexOfGo_not_mem c r (i + 1) best (fun hm => h (List.mem_cons_of_mem a hm))

theorem jsLastIndexOfGo_mem (c : Char) :
    ∀ (s : List Char) (i : Nat) (best : Int), c ∈ s →
      ∃ n : Nat, jsLastIndexOfGo c s i best = (n : Int) ∧ i ≤ n
  | [], i, best => by intro h; exact absurd h (List.not_mem_nil c)
  | a :: r, i, best => by
    intro h
    unfold jsLastIndexOfGo
    by_cases hac : a = c
    · rw [if_pos hac]
      by_cases hm : c ∈ r
      · obtain ⟨n, hn, hle⟩ := jsLastIndexOfGo_mem c r (i + 1) (i : Int) hm
        exact ⟨n, hn, by omega⟩
      · exact ⟨i, jsLastIndexOfGo_not_mem c r (i + 1) (i : Int) hm, le_refl i⟩
    · have hm : c ∈ r := by
        rcases List.mem_cons.mp h with h1 | h2
        · exact absurd h1.symm hac
        · exact h2
      obtain ⟨n, hn, hle⟩ := jsLastIndexOfGo_mem c r (i + 1) best hm
      exact ⟨n, by rw [if_neg hac]; exact hn, by omega⟩

theorem jsLastIndexOf_neg_iff (c : Char) (s : List Char) :
    jsLastIndexOf s c = -1 ↔ c ∉ s := by
  constructor
  · intro h hm
    obtain ⟨n, hn, _⟩ := jsLastIndexOfGo_mem c s 0 (-1) hm
    rw [jsLastIndexOf] at h; omega
  · intro h; exact jsLastIndexOfGo_not_mem c s 0 (-1) h

theorem jsLastIndexOf_mem (c : Char) (s : List Char) (h : c ∈ s) :
    ∃ n : Nat, jsLastIndexOf s c = (n : Int) := by
  obtain ⟨n, hn, _⟩ := jsLastIndexOfGo_mem c s 0 (-1) h
  exact ⟨n, hn⟩

theorem jsSliceFrom_ne_nil {s : List Char} {p : Int} (h0 : 0 ≤ p) (h1 : p < (s.length : Int)) :
    jsSliceFrom s p ≠ [] := by
  unfold jsSliceFrom jsSlice
  simp only []
  rw [if_neg (by omega : ¬(p < 0)), if_neg (by omega : ¬((s.length : Int) < 0))]
  intro hcontra
  rw [min_self, Int.toNat_natCast, List.take_length,
    min_eq_left (by omega : p ≤ (s.length : Int))] at hcontra
  have := List.drop_eq_nil_iff.mp hcontra
  omega

/- ===== C4 ===== -/

/-- C4 (counterexample): on `Q{ a }` the answer span the code produces is the
*trimmed* `a`, not the raw substring ` a ` strictly between the braces. -/
theorem braceSplit_span_counterexample :
    braceSplit "Q\x7b a \x7d".data = .ok ⟨false, "Q".data, "a".data⟩
    ∧ "a".data ≠ " a ".data :=
  ⟨by decide, by decide⟩

/-- C4 (amended): for every block text, (i) with neither `{` nor `}` the block
is a description whose question text is the whole block; (ii) with exactly one
of the two, or the last `}` before the first `{`, parsing fails with the fatal
`BraceMismatch` error; (iii) with both present well-ordered no brace error is
raised and the answer span is the whitespace-trimmed substring strictly
between the first `{` and the last `}`. -/
theorem braceSplit_cases (text : List Char) :
    (lb ∉ text → rb ∉ text → braceSplit text = .ok ⟨true, text, []⟩)
    ∧ ((lb ∈ text ∧ rb ∉ text) ∨ (lb ∉ text ∧ rb ∈ text) ∨
        (lb ∈ text ∧ rb ∈ text ∧ jsLastIndexOf text rb < jsIndexOf text lb) →
        braceSplit text = .error (.braceMismatch (escapedcharPost text)))
    ∧ (lb ∈ text → rb ∈ text → jsIndexOf text lb < jsLastIndexOf text rb →
        ∃ qt, braceSplit text =
          .ok ⟨false, qt, trim (jsSlice text (jsIndexOf text lb + 1) (jsLastIndexOf text rb))⟩) := by
  refine ⟨?_, ?_, ?_⟩
  · intro h1 h2
    unfold braceSplit
    rw [if_pos ⟨(jsIndexOf_neg_iff lb text).mpr h1, (jsLastIndexOf_neg_iff rb text).mpr h2⟩]
  · intro h
    unfold braceSplit
    rcases h with ⟨hin, hout⟩ | ⟨hout, hin⟩ | ⟨hin1, hin2, hord⟩
    · obtain ⟨n, hn, _⟩ := jsIndexOf_mem lb text hin
      rw [if_neg (fun hh => by rw [hn] at hh; omega),
        if_pos (Or.inr (Or.inl ((jsLastIndexOf_neg_iff rb text).mpr hout)))]
    · obtain ⟨n, hn⟩ := jsLastIndexOf_mem rb text hin
      rw [if_neg (fun hh => by rw [hn] at hh; omega),
        if_pos (Or.inl ((jsIndexOf_neg_iff lb text).mpr hout))]
    · obtain ⟨n, hn, _⟩ := jsIndexOf_mem lb text hin1
      rw [if_neg (fun hh => by rw [hn] at hh; omega), if_pos (Or.inr (Or.inr hord))]
  · intro h1 h2 hord
    unfold braceSplit
    obtain ⟨n, hn, _⟩ := jsIndexOf_mem lb text h1
    obtain ⟨m, hm⟩ := jsLastIndexOf_mem rb text h2
    rw [if_neg (fun hh => by rw [hn] at hh; omega),
      if_neg (fun hh => by
        rcases hh with hh | hh | hh
        · rw [hn] at hh; omega
        · rw [hm] at hh; omega
        · omega)]
    exact ⟨_, rfl⟩

/-- C4 witness: the three cases at concrete inputs. -/
theorem braceSplit_cases_witness :
    braceSplit "Desc".data = .ok ⟨true, "Desc".data, []⟩
    ∧ braceSplit "Q \x7b".data = .error (.braceMismatch "Q \x7b".data)
    ∧ ∃ qt, braceSplit "Q\x7b a \x7d".data =
        .ok ⟨false, qt,
          trim (jsSlice "Q\x7b a \x7d".data (jsIndexOf "Q\x7b a \x7d".data lb + 1)
            (jsLastIndexOf "Q\x7b a \x7d".data rb))⟩ :=
  ⟨by
    have h := (braceSplit_cases "Desc".data).1 (by decide) (by decide)
    exact h,
   by
    have h := (braceSplit_cases "Q \x7b".data).2.1 (Or.inl ⟨by decide, by decide⟩)
    simpa using h,
   (braceSplit_cases "Q\x7b a \x7d".data).2.2 (by decide) (by decide) (by decide)⟩

/- ===== C8 ===== -/

/-- C8: when the (`#`-stripped) numerical body contains a `~`, everything from
the `~` onward becomes one trailing wildcard-feedback entry: any successful
result of the numerical answer parser is some list followed by exactly one
final `answer = "*"`, `tolerance = ''`, `fraction = 0` entry, so no other
answer entry ever follows it. -/
theorem numerical_wildcard_last (fmt : Fmt) (answertext : List Char) (l : List NumAnswer)
    (h1 : '~' ∈ jsSliceFrom answertext 1)
    (h2 : parseNumericalAnswers fmt answertext = .ok l) :
    ∃ l' fb ffmt, l = l' ++ [⟨.star, .emptyStr, .zero, fb, ffmt⟩] := by
  unfold parseNumericalAnswers at h2
  simp only [] at h2
  obtain ⟨n, hn, hlt⟩ := jsIndexOf_mem '~' (jsSliceFrom answertext 1) h1
  rw [hn] at h2
  rw [if_pos (by omega : ((n : Int) ≠ -1)), if_pos (by omega : ((n : Int) ≠ -1))] at h2
  have hwf : jsSliceFrom (jsSliceFrom answertext 1) (n : Int) ≠ [] :=
    jsSliceFrom_ne_nil (by omega) (by exact_mod_cast hlt)
  split at h2
  · exact absurd h2 (by simp)
  · split at h2
    · exact absurd h2 (by simp)
    · simp only [Except.ok.injEq] at h2
      exact ⟨_, _, _, h2.symm⟩

/-- C8 witness: `#5:1~#wrong` parses with the wildcard entry appended last. -/
theorem numerical_wildcard_last_witness :
    ∃ l' fb ffmt,
      [(⟨.num ⟨5, 0⟩, .num ⟨1, 0⟩, .one, [], Fmt.moodle⟩ : NumAnswer),
       ⟨.star, .emptyStr, .zero, "wrong".data, Fmt.moodle⟩]
        = l' ++ [(⟨.star, .emptyStr, .zero, fb, ffmt⟩ : NumAnswer)] :=
  numerical_wildcard_last .moodle "#5:1~#wrong".data _ (by decide) (by decide)

/- ===== C9 ===== -/

def isOkE {α : Type} : Except GiftError α → Bool
  | .ok _ => true
  | .error _ => false

theorem parseBlocks_append_error (bs1 : List (List (List Char))) (b : List (List Char))
    (bs2 : List (List (List Char))) (e : GiftError)
    (hok : ∀ b' ∈ bs1, isOkE (parseQuestion b') = true)
    (he : parseQuestion b = .error e) :
    parseBlocks (bs1 ++ b :: bs2) = .error e := by
  induction bs1 with
  | nil =>
    show parseBlocks (b :: bs2) = .error e
    unfold parseBlocks
    rw [he]
  | cons b0 t ih =>
    have h0 := hok b0 (List.mem_cons_self _ _)
    have ih' := ih (fun b' hb => hok b' (List.mem_cons_of_mem _ hb))
    show parseBlocks (b0 :: (t ++ b :: bs2)) = .error e
    unfold parseBlocks
    cases hq : parseQuestion b0 with
    | error e0 => rw [hq] at h0; exact absurd h0 (by simp [isOkE])
    | ok v =>
      cases v with
      | none => exact ih'
      | some q => rw [ih']

theorem exportBlocks_append_error (qs1 : List Question) (q : Question) (qs2 : List Question)
    (e : GiftError)
    (hok : ∀ q' ∈ qs1, isOkE (writeOne q') = true)
    (he : writeOne q = .error e) :
    exportBlocks (qs1 ++ q :: qs2) = .error e := by
  induction qs1 with
  | nil =>
    show exportBlocks (q :: qs2) = .error e
    unfold exportBlocks
    rw [he]
  | cons q0 t ih =>
    have h0 := hok q0 (List.mem_cons_self _ _)
    have ih' := ih (fun q' hb => hok q' (List.mem_cons_of_mem _ hb))
    show exportBlocks (q0 :: (t ++ q :: qs2)) = .error e
    unfold exportBlocks
    cases hq : writeOne q0 with
    | error e0 => rw [hq] at h0; exact absurd h0 (by simp [isOkE])
    | ok v => rw [ih']

/-- C9: parsing and exporting are all-or-nothing.  If any block of the
segmented input fails to parse (the earlier blocks parsing fine), `parseGift`
returns exactly that error and no question list; likewise one failing
(e.g. unsupported-qtype) question aborts the entire `exportGift` call. -/
theorem parse_export_all_or_nothing :
    (∀ (input : List Char) (bs1 : List (List (List Char))) (b : List (List Char))
        (bs2 : List (List (List Char))) (e : GiftError),
      segmentBlocks (jsSplitChar lf (normNewlines input)) = bs1 ++ b :: bs2 →
      (∀ b' ∈ bs1, isOkE (parseQuestion b') = true) →
      parseQuestion b = .error e →
      parseGift input = .error e)
    ∧ (∀ (qs1 : List Question) (q : Question) (qs2 : List Question) (e : GiftError),
      (∀ q' ∈ qs1, isOkE (writeOne q') = true) →
      writeOne q = .error e →
      exportGift (qs1 ++ q :: qs2) = .error e) := by
  constructor
  · intro input bs1 b bs2 e hseg hok he
    unfold parseGift
    rw [hseg]
    exact parseBlocks_append_error bs1 b bs2 e hok he
  · intro qs1 q qs2 e hok he
    unfold exportGift
    rw [exportBlocks_append_error qs1 q qs2 e hok he]
    rfl

/-- C9 witness: a well-formed block followed by a brace-broken one aborts the
whole parse with that error; a single unsupported qtype aborts the export. -/
theorem parse_export_all_or_nothing_witness :
    parseGift "A \x7bT\x7d\n\nB \x7b".data = .error (.braceMismatch "B \x7b".data)
    ∧ exportGift [{ qtype := "bogus".data }] = .error (.unsupportedQtype "bogus".data) :=
  ⟨parse_export_all_or_nothing.1 _ [["A \x7bT\x7d".data]] ["B \x7b".data] [] _
      (by decide) (by decide) (by decide),
   parse_export_all_or_nothing.2 [] { qtype := "bogus".data } [] _
      (fun q' hq' => absurd hq' (List.not_mem_nil q')) (by decide)⟩

/- ===== rational semantics of DNum ===== -/

theorem toQ_eq_div (x : DNum) : x.toQ = (x.m : ℚ) / (10 : ℚ) ^ x.e := by
  unfold DNum.toQ
  rw [Rat.mkRat_eq_divInt, Rat.divInt_eq_div]
  push_cast
  ring

theorem toQ_dnorm (e : Nat) : ∀ m : Int, (dnorm m e).toQ = (m : ℚ) / (10 : ℚ) ^ e := by
  induction e with
  | zero => intro m; rw [toQ_eq_div]; rfl
  | succ e ih =>
    intro m
    unfold dnorm
    by_cases h : m % 10 = 0
    · rw [if_pos h, ih (m / 10)]
      obtain ⟨k, hk⟩ := Int.dvd_of_emod_eq_zero h
      subst hk
      rw [Int.mul_ediv_cancel_left k (by norm_num)]
      push_cast
      rw [pow_succ]
      field_simp
      ring
    · rw [if_neg h, toQ_eq_div]

theorem toQ_add (x y : DNum) : (x.add y).toQ = x.toQ + y.toQ := by
  unfold DNum.add
  rw [toQ_dnorm, toQ_eq_div x, toQ_eq_div y]
  have h10 : (10 : ℚ) ≠ 0 := by norm_num
  have hx : (10 : ℚ) ^ max x.e y.e = 10 ^ (max x.e y.e - x.e) * 10 ^ x.e := by
    rw [← pow_add, Nat.sub_add_cancel (Nat.le_max_left _ _)]
  have hy : (10 : ℚ) ^ max x.e y.e = 10 ^ (max x.e y.e - y.e) * 10 ^ y.e := by
    rw [← pow_add, Nat.sub_add_cancel (Nat.le_max_right _ _)]
  have e1 : (x.m : ℚ) / 10 ^ x.e * 10 ^ max x.e y.e = x.m * 10 ^ (max x.e y.e - x.e) := by
    rw [hx]; field_simp; ring
  have e2 : (y.m : ℚ) / 10 ^ y.e * 10 ^ max x.e y.e = y.m * 10 ^ (max x.e y.e - y.e) := by
    rw [hy]; field_simp; ring
  rw [div_eq_iff (pow_ne_zero _ h10), add_mul, e1, e2]
  push_cast
  ring

theorem toQ_sub (x y : DNum) : (x.sub y).toQ = x.toQ - y.toQ := by
  unfold DNum.sub
  rw [toQ_dnorm, toQ_eq_div x, toQ_eq_div y]
  have h10 : (10 : ℚ) ≠ 0 := by norm_num
  have hx : (10 : ℚ) ^ max x.e y.e = 10 ^ (max x.e y.e - x.e) * 10 ^ x.e := by
    rw [← pow_add, Nat.sub_add_cancel (Nat.le_max_left _ _)]
  have hy : (10 : ℚ) ^ max x.e y.e = 10 ^ (max x.e y.e - y.e) * 10 ^ y.e := by
    rw [← pow_add, Nat.sub_add_cancel (Nat.le_max_right _ _)]
  have e1 : (x.m : ℚ) / 10 ^ x.e * 10 ^ max x.e y.e = x.m * 10 ^ (max x.e y.e - x.e) := by
    rw [hx]; field_simp; ring
  have e2 : (y.m : ℚ) / 10 ^ y.e * 10 ^ max x.e y.e = y.m * 10 ^ (max x.e y.e - y.e) := by
    rw [hy]; field_simp; ring
  rw [div_eq_iff (pow_ne_zero _ h10), sub_mul, e1, e2]
  push_cast
  ring

theorem toQ_half (x : DNum) : (x.half).toQ = x.toQ / 2 := by
  unfold DNum.half
  rw [toQ_dnorm, toQ_eq_div]
  push_cast
  rw [pow_succ]
  field_simp
  ring

/- ===== split / append lemmas for the numerical grammar ===== -/

theorem isPrefixOf_self_append : ∀ (p t : List Char), p.isPrefixOf (p ++ t) = true
  | [], _ => by simp [List.isPrefixOf]
  | a :: p', t => by
    show List.isPrefixOf (a :: p') (a :: (p' ++ t)) = true
    simp [List.isPrefixOf, isPrefixOf_self_append p' t]

theorem containsStr_cons (pat : List Char) (c : Char) (r : List Char) :
    containsStr pat (c :: r) = (pat.isPrefixOf (c :: r) || containsStr pat r) := by
  rfl

theorem containsStr_sandwich (pat : List Char) (hp : pat ≠ []) :
    ∀ (s t : List Char), containsStr pat (s ++ (pat ++ t)) = true := by
  intro s t
  induction s with
  | nil =>
    cases pat with
    | nil => exact absurd rfl hp
    | cons p ps =>
      show containsStr (p :: ps) (p :: (ps ++ t)) = true
      rw [containsStr_cons,
        show p :: (ps ++ t) = (p :: ps) ++ t from rfl,
        isPrefixOf_self_append (p :: ps) t, Bool.true_or]
  | cons a r ih =>
    show containsStr pat (a :: (r ++ (pat ++ t))) = true
    rw [containsStr_cons, ih, Bool.or_true]

theorem splitDD_no_sep : ∀ t : List Char, containsStr "..".data t = false → splitDD t = [t]
  | [] => fun _ => rfl
  | [a] => fun _ => rfl
  | a :: b :: r => by
    intro hc
    rw [containsStr_cons, Bool.or_eq_false_iff] at hc
    have hab : ¬(a = '.' ∧ b = '.') := by
      intro ⟨h1, h2⟩
      subst h1; subst h2
      simp [List.isPrefixOf] at hc
    conv_lhs => unfold splitDD
    rw [if_neg hab, splitDD_no_sep (b :: r) hc.2]

theorem splitDD_boundary :
    ∀ (s t : List Char), containsStr "..".data s = false → s.getLast? ≠ some '.' →
      splitDD (s ++ '.' :: '.' :: t) = s :: splitDD t
  | [], t => by
    intro _ _
    show splitDD ('.' :: '.' :: t) = [] :: splitDD t
    conv_lhs => unfold splitDD
    rw [if_pos ⟨rfl, rfl⟩]
  | [a], t => by
    intro _ hl
    have ha : ¬(a = '.' ∧ '.' = '.') := by
      intro ⟨h1, _⟩
      exact hl (by simp [h1])
    have h0 : splitDD ('.' :: '.' :: t) = [] :: splitDD t := by
      conv_lhs => unfold splitDD
      rw [if_pos ⟨rfl, rfl⟩]
    show splitDD (a :: '.' :: '.' :: t) = [a] :: splitDD t
    conv_lhs => unfold splitDD
    rw [if_neg ha, h0]
  | a :: b :: r, t => by
    intro hc hl
    rw [containsStr_cons, Bool.or_eq_false_iff] at hc
    have hab : ¬(a = '.' ∧ b = '.') := by
      intro ⟨h1, h2⟩
      subst h1; subst h2
      simp [List.isPrefixOf] at hc
    have hl' : (b :: r).getLast? ≠ some '.' := by
      rwa [List.getLast?_cons_cons] at hl
    show splitDD (a :: b :: (r ++ '.' :: '.' :: t)) = (a :: b :: r) :: splitDD t
    conv_lhs => unfold splitDD
    rw [if_neg hab,
      show b :: (r ++ '.' :: '.' :: t) = (b :: r) ++ '.' :: '.' :: t from rfl,
      splitDD_boundary (b :: r) t hc.2 hl']

theorem jsIndexOfGo_append (c : Char) :
    ∀ (s t : List Char) (i : Nat), c ∉ s →
      jsIndexOfGo c (s ++ c :: t) i = ((i + s.length : Nat) : Int)
  | [], t, i => by
    intro _
    show jsIndexOfGo c (c :: t) i = _
    unfold jsIndexOfGo
    rw [if_pos rfl]
    simp
  | a :: r, t, i => by
    intro h
    have ha : ¬(a = c) := fun hh => h (hh ▸ List.mem_cons_self a r)
    show jsIndexOfGo c (a :: (r ++ c :: t)) i = _
    unfold jsIndexOfGo
    rw [if_neg ha, jsIndexOfGo_append c r t (i + 1)
      (fun hm => h (List.mem_cons_of_mem a hm))]
    simp only [List.length_cons]
    push_cast
    ring

theorem jsIndexOf_append (c : Char) (s t : List Char) (h : c ∉ s) :
    jsIndexOf (s ++ c :: t) c = (s.length : Int) := by
  rw [jsIndexOf, jsIndexOfGo_append c s t 0 h]
  simp

theorem jsSlice_prefix (s t : List Char) : jsSlice (s ++ t) 0 (s.length : Int) = s := by
  unfold jsSlice
  simp only []
  rw [if_neg (by omega : ¬((0:Int) < 0)),
    if_neg (by omega : ¬((s.length : Int) < 0))]
  have hle : (s.length : Int) ≤ ((s ++ t).length : Int) := by
    rw [List.length_append]; omega
  rw [min_eq_left hle]
  simp only [Int.toNat_natCast]
  rw [show ((0:Int) ⊓ ((s ++ t).length : Int)).toNat = 0 by simp]
  rw [List.drop_zero, List.take_left]

theorem jsSliceFrom_append_cons (s : List Char) (c : Char) (t : List Char) :
    jsSliceFrom (s ++ c :: t) ((s.length : Int) + 1) = t := by
  unfold jsSliceFrom jsSlice
  simp only []
  have hlen : ((s ++ c :: t).length : Int) = (s.length : Int) + 1 + (t.length : Int) := by
    rw [List.length_append, List.length_cons]; push_cast; omega
  rw [if_neg (by omega : ¬((s.length : Int) + 1 < 0)),
    if_neg (by omega : ¬(((s ++ c :: t).length : Int) < 0))]
  rw [min_eq_left (by rw [hlen]; omega : (s.length : Int) + 1 ≤ ((s ++ c :: t).length : Int)),
    min_self]
  rw [show (((s ++ c :: t).length : Int)).toNat = (s ++ c :: t).length by omega,
    List.take_length]
  rw [show (((s.length : Int)) + 1).toNat = (s ++ [c]).length by
      rw [List.length_append]; simp]
  rw [show s ++ c :: t = (s ++ [c]) ++ t by simp, List.drop_left]

/- ===== C7 ===== -/

/-- C7: interpretation of a numerical answer token.  `a..b` yields the
midpoint `(a+b)/2` with tolerance `(b-a)/2` (rational semantics of the
decimal values); `a:t` yields answer `a` with tolerance `t`; otherwise a bare
number parses with tolerance `0`, the wildcard `*` is accepted (stored as the
JS `NaN`), and a required non-finite numeric reading raises the fatal
`MalformedNumeric` error (in both the bare and the range form). -/
theorem parseNumValue_spec :
    (∀ (s t : List Char) (a b : DNum), containsStr "..".data s = false →
        s.getLast? ≠ some '.' → containsStr "..".data t = false →
        jsParseFloat (trim s) = some a → jsParseFloat (trim t) = some b →
        ∃ v w : DNum, parseNumValue (s ++ '.' :: '.' :: t) = .ok (.num v, w) ∧
          v.toQ = (a.toQ + b.toQ) / 2 ∧ w.toQ = (b.toQ - a.toQ) / 2)
    ∧ (∀ (s t : List Char) (a w : DNum), containsStr "..".data (s ++ ':' :: t) = false →
        ':' ∉ s → jsParseFloat (trim s) = some a → jsParseFloat (trim t) = some w →
        parseNumValue (s ++ ':' :: t) = .ok (.num a, w))
    ∧ (∀ (raw : List Char) (a : DNum), containsStr "..".data raw = false → ':' ∉ raw →
        jsParseFloat (trim raw) = some a → parseNumValue raw = .ok (.num a, .zero))
    ∧ parseNumValue "*".data = .ok (.nan, .zero)
    ∧ (∀ raw : List Char, containsStr "..".data raw = false → ':' ∉ raw →
        jsParseFloat (trim raw) = none → trim raw ≠ "*".data →
        parseNumValue raw = .error (.malformedNumeric "Numerical answer must be a number".data))
    ∧ (∀ s t : List Char, containsStr "..".data s = false → s.getLast? ≠ some '.' →
        containsStr "..".data t = false →
        (jsParseFloat (trim s) = none ∨ jsParseFloat (trim t) = none) →
        parseNumValue (s ++ '.' :: '.' :: t) =
          .error (.malformedNumeric "Numerical range must be numbers".data)) := by
  refine ⟨?_, ?_, ?_, by decide, ?_, ?_⟩
  · intro s t a b hcs hlast hct hfa hfb
    have hsplit : splitDD (s ++ '.' :: '.' :: t) = [s, t] := by
      rw [splitDD_boundary s t hcs hlast, splitDD_no_sep t hct]
    have hc : containsStr "..".data (s ++ '.' :: '.' :: t) = true :=
      containsStr_sandwich "..".data (by decide) s t
    unfold parseNumValue
    simp only []
    rw [if_pos hc, hsplit]
    simp only [List.map_cons, List.map_nil, List.getD_cons_zero, List.getD_cons_succ]
    rw [hfa, hfb]
    refine ⟨_, _, rfl, ?_, ?_⟩
    · rw [toQ_half, toQ_add]; ring
    · rw [toQ_sub, toQ_half, toQ_add]; ring
  · intro s t a w hdd hcolon hfa hfw
    unfold parseNumValue
    simp only []
    rw [if_neg (by rw [hdd]; exact Bool.false_ne_true)]
    rw [if_pos (List.mem_append.mpr (Or.inr (List.mem_cons_self ':' t)))]
    rw [jsIndexOf_append ':' s t hcolon, jsSlice_prefix, jsSliceFrom_append_cons]
    rw [hfa, hfw]
  · intro raw a hdd hcolon hfa
    unfold parseNumValue
    rw [if_neg (by rw [hdd]; exact Bool.false_ne_true), if_neg hcolon, hfa]
  · intro raw hdd hcolon hfa hstar
    unfold parseNumValue
    rw [if_neg (by rw [hdd]; exact Bool.false_ne_true), if_neg hcolon, hfa,
      if_neg hstar]
  · intro s t hcs hlast hct hor
    have hsplit : splitDD (s ++ '.' :: '.' :: t) = [s, t] := by
      rw [splitDD_boundary s t hcs hlast, splitDD_no_sep t hct]
    have hc : containsStr "..".data (s ++ '.' :: '.' :: t) = true :=
      containsStr_sandwich "..".data (by decide) s t
    unfold parseNumValue
    simp only []
    rw [if_pos hc, hsplit]
    simp only [List.map_cons, List.map_nil, List.getD_cons_zero, List.getD_cons_succ]
    rcases hor with h | h
    · rw [h]
    · rw [h]
      cases jsParseFloat (trim s) <;> rfl

/-- C7 witness: `1..3` gives answer 2, tolerance 1; `5:0.5` gives answer 5,
tolerance 0.5; bare `7` gives tolerance 0; `x` is a malformed numeric. -/
theorem parseNumValue_spec_witness :
    (∃ v w : DNum, parseNumValue ("1".data ++ '.' :: '.' :: "3".data) = .ok (.num v, w) ∧
      v.toQ = ((⟨1, 0⟩ : DNum).toQ + (⟨3, 0⟩ : DNum).toQ) / 2 ∧
      w.toQ = ((⟨3, 0⟩ : DNum).toQ - (⟨1, 0⟩ : DNum).toQ) / 2)
    ∧ parseNumValue ("5".data ++ ':' :: "0.5".data) = .ok (.num ⟨5, 0⟩, ⟨5, 1⟩)
    ∧ parseNumValue "7".data = .ok (.num ⟨7, 0⟩, .zero)
    ∧ parseNumValue "x".data =
        .error (.malformedNumeric "Numerical answer must be a number".data) :=
  ⟨parseNumValue_spec.1 "1".data "3".data ⟨1, 0⟩ ⟨3, 0⟩ (by decide) (by decide) (by decide)
      (by decide) (by decide),
   parseNumValue_spec.2.1 "5".data "0.5".data ⟨5, 0⟩ ⟨5, 1⟩ (by decide) (by decide)
      (by decide) (by decide),
   parseNumValue_spec.2.2.1 "7".data ⟨7, 0⟩ (by decide) (by decide) (by decide),
   parseNumValue_spec.2.2.2.2.1 "x".data (by decide) (by decide) (by decide) (by decide)⟩

/- ===== replaceAll calculus (for the escaping round-trip, claim C2) ===== -/

/-- Character-wise expansion: the image of a string under a per-character
block map.  The escaping pipeline maps strings of the restricted alphabet to
such images stage by stage. -/
def cmap (f : Char → List Char) : List Char → List Char
  | [] => []
  | c :: s => f c ++ cmap f s

theorem cmap_pure : ∀ s : List Char, cmap (fun c => [c]) s = s
  | [] => rfl
  | c :: s => by rw [cmap, cmap_pure s]; rfl

theorem cmap_ext (f g : Char → List Char) (h : ∀ c, f c = g c) :
    ∀ s : List Char, cmap f s = cmap g s
  | [] => rfl
  | c :: s => by rw [cmap, cmap, h c, cmap_ext f g h s]

theorem cmap_ne_nil (f : Char → List Char) (c : Char) (s : List Char)
    (h : f c ≠ []) : cmap f (c :: s) ≠ [] := by
  rw [cmap]
  intro hx
  rcases List.append_eq_nil.mp hx with ⟨h1, _⟩
  exact h h1

theorem replaceAllGo_fuel2 (pat rep : List Char) :
    ∀ (f1 f2 : Nat) (s : List Char), s.length ≤ f1 → s.length ≤ f2 →
      replaceAllGo pat rep f1 s = replaceAllGo pat rep f2 s := by
  intro f1
  induction f1 with
  | zero =>
    intro f2 s hs _
    have : s = [] := List.eq_nil_of_length_eq_zero (by omega)
    subst this
    cases f2 <;> rfl
  | succ f1 ih =>
    intro f2 s hs1 hs2
    cases s with
    | nil => cases f2 <;> rfl
    | cons c rest =>
      simp only [List.length_cons] at hs1 hs2
      cases f2 with
      | zero => omega
      | succ f2 =>
        show replaceAllGo pat rep (f1 + 1) (c :: rest) = replaceAllGo pat rep (f2 + 1) (c :: rest)
        unfold replaceAllGo
        by_cases h : pat ≠ [] ∧ pat.isPrefixOf (c :: rest)
        · rw [if_pos h, if_pos h]
          have hlen : (List.drop (pat.length - 1) rest).length ≤ rest.length := by
            rw [List.length_drop]; omega
          rw [ih f2 _ (by omega) (by omega)]
        · rw [if_neg h, if_neg h, ih f2 rest (by omega) (by omega)]

theorem replaceAllGo_fuel (pat rep : List Char) (f1 : Nat) (s : List Char)
    (h : s.length ≤ f1) : replaceAllGo pat rep f1 s = replaceAll pat rep s :=
  replaceAllGo_fuel2 pat rep f1 s.length s h (le_refl _)

theorem replaceAll_step (pat rep : List Char) (c : Char) (t : List Char)
    (h : ¬(pat ≠ [] ∧ pat.isPrefixOf (c :: t) = true)) :
    replaceAll pat rep (c :: t) = c :: replaceAll pat rep t := by
  show replaceAllGo pat rep (t.length + 1) (c :: t) = _
  unfold replaceAllGo
  rw [if_neg h]
  rfl

theorem replaceAll_consume (p : Char) (ps rep t : List Char) :
    replaceAll (p :: ps) rep ((p :: ps) ++ t) = rep ++ replaceAll (p :: ps) rep t := by
  show replaceAllGo (p :: ps) rep ((ps ++ t).length + 1) (p :: (ps ++ t)) = _
  unfold replaceAllGo
  rw [if_pos ⟨List.cons_ne_nil p ps, by
    have h := isPrefixOf_self_append (p :: ps) t
    simp only [List.cons_append] at h
    exact h⟩]
  have hdrop : List.drop ((p :: ps).length - 1) (ps ++ t) = t := by
    simp only [List.length_cons, Nat.add_sub_cancel]
    exact List.drop_left ps t
  rw [hdrop, replaceAllGo_fuel _ _ _ _ (by rw [List.length_append]; omega)]

theorem replaceAll_skip_block (p : Char) (ps rep : List Char) :
    ∀ (blk t : List Char), p ∉ blk →
      replaceAll (p :: ps) rep (blk ++ t) = blk ++ replaceAll (p :: ps) rep t
  | [], t => by intro _; simp
  | b :: bl, t => by
    intro h
    have hpb : ¬(p = b) := fun hh => h (hh ▸ List.mem_cons_self b bl)
    rw [show (b :: bl) ++ t = b :: (bl ++ t) from rfl]
    rw [replaceAll_step _ _ _ _ (by
      intro ⟨_, hpre⟩
      simp [List.isPrefixOf] at hpre
      exact hpb hpre.1)]
    rw [replaceAll_skip_block p ps rep bl t (fun hm => h (List.mem_cons_of_mem b hm))]
    rfl

theorem replaceAll_skip2 (p1 p2 : Char) (rep : List Char) (b : Char) (t : List Char)
    (h1 : p2 ≠ b) (h2 : p1 ≠ b) :
    replaceAll [p1, p2] rep (p1 :: b :: t) = p1 :: b :: replaceAll [p1, p2] rep t := by
  rw [replaceAll_step _ _ _ _ (by
    intro ⟨_, hpre⟩
    simp [List.isPrefixOf] at hpre
    exact h1 hpre)]
  rw [show (b :: t : List Char) = [b] ++ t from rfl,
    replaceAll_skip_block p1 [p2] rep [b] t (by simp [h2])]
  rfl

theorem replaceAll_skip_ph (d e f a b c : Char) (rep t : List Char)
    (h : ¬(d = a ∧ e = b ∧ f = c)) (ha : a ≠ '&') (hb : b ≠ '&') (hc : c ≠ '&') :
    replaceAll ['&', '&', d, e, f, ';'] rep ('&' :: '&' :: a :: b :: c :: ';' :: t)
      = '&' :: '&' :: a :: b :: c :: ';' :: replaceAll ['&', '&', d, e, f, ';'] rep t := by
  rw [replaceAll_step _ _ _ _ (by
    intro ⟨_, hpre⟩
    simp [List.isPrefixOf] at hpre
    exact h hpre)]
  rw [replaceAll_step _ _ _ _ (by
    intro ⟨_, hpre⟩
    simp [List.isPrefixOf] at hpre
    exact ha hpre.1.symm)]
  rw [show (a :: b :: c :: ';' :: t : List Char) = [a, b, c, ';'] ++ t from rfl,
    replaceAll_skip_block '&' ['&', d, e, f, ';'] rep [a, b, c, ';'] t
      (by simp [Ne.symm ha, Ne.symm hb, Ne.symm hc])]
  rfl

theorem replaceAll_id_of_head_notin (p : Char) (ps rep : List Char) :
    ∀ s : List Char, p ∉ s → replaceAll (p :: ps) rep s = s
  | [] => fun _ => rfl
  | c :: r => by
    intro h
    have hpc : ¬(p = c) := fun hh => h (hh ▸ List.mem_cons_self c r)
    rw [replaceAll_step _ _ _ _ (by
      intro ⟨_, hpre⟩
      simp [List.isPrefixOf] at hpre
      exact hpc hpre.1)]
    rw [replaceAll_id_of_head_notin p ps rep r (fun hm => h (List.mem_cons_of_mem c hm))]

theorem cmap_stage {P : Char → Prop} (pat rep : List Char) (f g : Char → List Char)
    (h : ∀ c, P c → ∀ t, replaceAll pat rep (f c ++ t) = g c ++ replaceAll pat rep t) :
    ∀ s, (∀ c ∈ s, P c) → replaceAll pat rep (cmap f s) = cmap g s
  | [] => fun _ => rfl
  | c :: s => by
    intro hs
    rw [cmap, cmap, h c (hs c (List.mem_cons_self c s)),
      cmap_stage pat rep f g h s (fun x hx => hs x (List.mem_cons_of_mem c hx))]

/- ===== the escaping stage maps (claim C2) ===== -/

/-- The restricted alphabet of the amended claim: no backslash (only
introduced by escaping itself), no ampersand (would collide with the
placeholder tokens), no carriage return (stripped by `repchar`), and no
newline (`\n` un-escapes to the letter `n`, see the counterexample). -/
def okc (c : Char) : Prop := c ≠ bs ∧ c ≠ '&' ∧ c ≠ cr ∧ c ≠ lf

instance (c : Char) : Decidable (okc c) := by
  unfold okc
  infer_instance

/-- The reserved characters in the order `repchar` escapes them (innermost
stage first). -/
def Rlist : List Char := [':', rb, lb, '~', '=', '#']

/-- The reserved characters in the order `escapedcharPre`/`escapedcharPost`
substitute them. -/
def RlistP : List Char := ['~', rb, lb, '=', '#', ':']

def placeholderOf (c : Char) : List Char :=
  if c = ':' then "&&058;".data
  else if c = '#' then "&&035;".data
  else if c = '=' then "&&061;".data
  else if c = lb then "&&123;".data
  else if c = rb then "&&125;".data
  else if c = '~' then "&&126;".data
  else [c]

/-- Block map during `repchar`: characters already escaped become `\c`. -/
def repMap (done : List Char) (c : Char) : List Char :=
  if c ∈ done then [bs, c] else [c]

/-- Block map during `escapedcharPre`: escaped pairs already substituted
become placeholders. -/
def preMap (done : List Char) (c : Char) : List Char :=
  if c ∈ done then placeholderOf c else repMap Rlist c

/-- Block map during `escapedcharPost`: placeholders already replaced become
single characters again. -/
def postMap (done : List Char) (c : Char) : List Char :=
  if c ∈ done then [c] else preMap RlistP c

theorem rlist_set (c : Char) : c ∈ Rlist ↔ c ∈ RlistP := by
  simp [Rlist, RlistP]
  tauto

theorem bs_not_mem_placeholderOf (c : Char) (hc : c ≠ bs) : bs ∉ placeholderOf c := by
  unfold placeholderOf
  split_ifs <;> first
    | decide
    | (simp only [List.mem_singleton]; exact Ne.symm hc)

theorem placeholderOf_ne_nil (c : Char) : placeholderOf c ≠ [] := by
  unfold placeholderOf
  split_ifs <;> simp

theorem repMap_ne_nil (done : List Char) (c : Char) : repMap done c ≠ [] := by
  unfold repMap
  split_ifs <;> simp

theorem preMap_ne_nil (done : List Char) (c : Char) : preMap done c ≠ [] := by
  unfold preMap
  split_ifs with h
  · exact placeholderOf_ne_nil c
  · exact repMap_ne_nil Rlist c

/-- A `repchar` substitution stage `c → \c` acting on the image of `repMap`. -/
theorem repMap_stage (p : Char) (done : List Char) (hpbs : p ≠ bs) (hpd : p ∉ done) :
    ∀ c : Char, okc c → ∀ t, replaceAll [p] [bs, p] (repMap done c ++ t)
      = repMap (p :: done) c ++ replaceAll [p] [bs, p] t := by
  intro c _ t
  by_cases hcp : c = p
  · subst hcp
    simp only [repMap, if_neg hpd, if_pos (List.mem_cons_self c done)]
    exact replaceAll_consume c [] [bs, c] t
  · by_cases hd : c ∈ done
    · simp only [repMap, if_pos hd, if_pos (List.mem_cons_of_mem p hd)]
      exact replaceAll_skip_block p [] [bs, p] [bs, c] t
        (fun hm => (List.mem_cons.mp hm).elim hpbs
          (fun hm2 => hcp ((List.mem_singleton.mp hm2).symm)))
    · simp only [repMap, if_neg hd,
        if_neg (fun hm => (List.mem_cons.mp hm).elim (fun h => hcp h) hd)]
      exact replaceAll_skip_block p [] [bs, p] [c] t
        (fun hm => hcp ((List.mem_singleton.mp hm).symm))

/-- A `repchar` stage whose pattern character `q` touches none of the blocks:
the image of `repMap` passes through unchanged. -/
theorem repMap_noop (q : Char) (rep : List Char) (done : List Char)
    (hdq : ∀ x ∈ done, q ≠ bs ∧ q ≠ x) :
    ∀ c : Char, c ≠ q → ∀ t, replaceAll [q] rep (repMap done c ++ t)
      = repMap done c ++ replaceAll [q] rep t := by
  intro c hcq t
  by_cases hd : c ∈ done
  · simp only [repMap, if_pos hd]
    exact replaceAll_skip_block q [] rep [bs, c] t
      (fun hm => (List.mem_cons.mp hm).elim (hdq c hd).1
        (fun hm2 => (hdq c hd).2 (List.mem_singleton.mp hm2)))
  · simp only [repMap, if_neg hd]
    exact replaceAll_skip_block q [] rep [c] t
      (fun hm => hcq ((List.mem_singleton.mp hm).symm))

/-- `repchar` on an `okc` string is the blockwise image of `repMap Rlist`. -/
theorem repchar_cmap (s : List Char) (hs : ∀ c ∈ s, okc c) :
    repchar s = cmap (repMap Rlist) s := by
  have h0 : s = cmap (repMap []) s := by
    rw [cmap_ext (repMap []) (fun c => [c])
      (fun c => by simp only [repMap, if_neg (List.not_mem_nil c)]), cmap_pure]
  have e1 : replaceAll [bs] [bs, bs] s = cmap (repMap []) s := by
    conv_lhs => rw [h0]
    exact cmap_stage (P := okc) _ _ _ _
      (fun c hc t => repMap_noop bs [bs, bs] [] (by simp) c hc.1 t) s hs
  have e2 : replaceAll ['#'] [bs, '#'] (replaceAll [bs] [bs, bs] s)
      = cmap (repMap ['#']) s := by
    rw [e1]
    exact cmap_stage (P := okc) _ _ _ _
      (fun c hc t => repMap_stage '#' [] (by decide) (by decide) c hc t) s hs
  have e3 : replaceAll ['='] [bs, '='] (replaceAll ['#'] [bs, '#']
      (replaceAll [bs] [bs, bs] s)) = cmap (repMap ['=', '#']) s := by
    rw [e2]
    exact cmap_stage (P := okc) _ _ _ _
      (fun c hc t => repMap_stage '=' ['#'] (by decide) (by decide) c hc t) s hs
  have e4 : replaceAll ['~'] [bs, '~'] (replaceAll ['='] [bs, '=']
      (replaceAll ['#'] [bs, '#'] (replaceAll [bs] [bs, bs] s)))
      = cmap (repMap ['~', '=', '#']) s := by
    rw [e3]
    exact cmap_stage (P := okc) _ _ _ _
      (fun c hc t => repMap_stage '~' ['=', '#'] (by decide) (by decide) c hc t) s hs
  have e5 : replaceAll [lb] [bs, lb] (replaceAll ['~'] [bs, '~']
      (replaceAll ['='] [bs, '='] (replaceAll ['#'] [bs, '#']
      (replaceAll [bs] [bs, bs] s)))) = cmap (repMap [lb, '~', '=', '#']) s := by
    rw [e4]
    exact cmap_stage (P := okc) _ _ _ _
      (fun c hc t => repMap_stage lb ['~', '=', '#'] (by decide) (by decide) c hc t) s hs
  have e6 : replaceAll [rb] [bs, rb] (replaceAll [lb] [bs, lb]
      (replaceAll ['~'] [bs, '~'] (replaceAll ['='] [bs, '=']
      (replaceAll ['#'] [bs, '#'] (replaceAll [bs] [bs, bs] s)))))
      = cmap (repMap [rb, lb, '~', '=', '#']) s := by
    rw [e5]
    exact cmap_stage (P := okc) _ _ _ _
      (fun c hc t => repMap_stage rb [lb, '~', '=', '#'] (by decide) (by decide) c hc t) s hs
  have e7 : replaceAll [':'] [bs, ':'] (replaceAll [rb] [bs, rb]
      (replaceAll [lb] [bs, lb] (replaceAll ['~'] [bs, '~']
      (replaceAll ['='] [bs, '='] (replaceAll ['#'] [bs, '#']
      (replaceAll [bs] [bs, bs] s)))))) = cmap (repMap Rlist) s := by
    rw [e6]
    exact cmap_stage (P := okc) _ _ _ _
      (fun c hc t => repMap_stage ':' [rb, lb, '~', '=', '#'] (by decide) (by decide) c hc t) s hs
  have e8 : replaceAll [lf] [bs, 'n'] (replaceAll [':'] [bs, ':']
      (replaceAll [rb] [bs, rb] (replaceAll [lb] [bs, lb]
      (replaceAll ['~'] [bs, '~'] (replaceAll ['='] [bs, '=']
      (replaceAll ['#'] [bs, '#'] (replaceAll [bs] [bs, bs] s)))))))
      = cmap (repMap Rlist) s := by
    rw [e7]
    exact cmap_stage (P := okc) _ _ _ _
      (fun c hc t => repMap_noop lf [bs, 'n'] Rlist (by decide) c hc.2.2.2 t) s hs
  have e9 : replaceAll [cr] [] (replaceAll [lf] [bs, 'n'] (replaceAll [':'] [bs, ':']
      (replaceAll [rb] [bs, rb] (replaceAll [lb] [bs, lb]
      (replaceAll ['~'] [bs, '~'] (replaceAll ['='] [bs, '=']
      (replaceAll ['#'] [bs, '#'] (replaceAll [bs] [bs, bs] s))))))))
      = cmap (repMap Rlist) s := by
    rw [e8]
    exact cmap_stage (P := okc) _ _ _ _
      (fun c hc t => repMap_noop cr [] Rlist (by decide) c hc.2.2.1 t) s hs
  exact e9

/-- The `\\ → &&092;` stage of `escapedcharPre` does not touch the image of
`repMap Rlist` on `okc` characters: no block contains two backslashes. -/
theorem pre_mask_noop : ∀ c : Char, okc c → ∀ t,
    replaceAll [bs, bs] "&&092;".data (preMap [] c ++ t)
      = preMap [] c ++ replaceAll [bs, bs] "&&092;".data t := by
  intro c hc t
  simp only [preMap, if_neg (List.not_mem_nil c), repMap]
  by_cases hr : c ∈ Rlist
  · rw [if_pos hr]
    exact replaceAll_skip2 bs bs _ c t (Ne.symm hc.1) (Ne.symm hc.1)
  · rw [if_neg hr]
    exact replaceAll_skip_block bs [bs] _ [c] t
      (fun hm => hc.1 ((List.mem_singleton.mp hm).symm))

/-- A substitution stage `\rk → placeholder` of `escapedcharPre` acting on the
image of `preMap`. -/
theorem pre_sub_stage (rk : Char) (done : List Char) (hrk : rk ∈ Rlist)
    (hnd : rk ∉ done) (hrkbs : rk ≠ bs) :
    ∀ c : Char, okc c → ∀ t, replaceAll [bs, rk] (placeholderOf rk) (preMap done c ++ t)
      = preMap (rk :: done) c ++ replaceAll [bs, rk] (placeholderOf rk) t := by
  intro c hc t
  by_cases hcr : c = rk
  · subst hcr
    simp only [preMap, if_neg hnd, repMap, if_pos hrk, if_pos (List.mem_cons_self c done)]
    exact replaceAll_consume bs [c] (placeholderOf c) t
  · by_cases hd : c ∈ done
    · simp only [preMap, if_pos hd, if_pos (List.mem_cons_of_mem rk hd)]
      exact replaceAll_skip_block bs [rk] _ (placeholderOf c) t
        (bs_not_mem_placeholderOf c hc.1)
    · simp only [preMap, if_neg hd,
        if_neg (fun hm => (List.mem_cons.mp hm).elim (fun h => hcr h) hd), repMap]
      by_cases hr : c ∈ Rlist
      · rw [if_pos hr]
        exact replaceAll_skip2 bs rk _ c t (fun h => hcr h.symm) (Ne.symm hc.1)
      · rw [if_neg hr]
        exact replaceAll_skip_block bs [rk] _ [c] t
          (fun hm => hc.1 ((List.mem_singleton.mp hm).symm))

/-- The `\n → &&010` stage of `escapedcharPre` does not touch the image of
`preMap RlistP` on `okc` characters. -/
theorem pre_n_noop : ∀ c : Char, okc c → ∀ t,
    replaceAll [bs, 'n'] "&&010".data (preMap RlistP c ++ t)
      = preMap RlistP c ++ replaceAll [bs, 'n'] "&&010".data t := by
  intro c hc t
  by_cases hd : c ∈ RlistP
  · simp only [preMap, if_pos hd]
    exact replaceAll_skip_block bs ['n'] _ (placeholderOf c) t
      (bs_not_mem_placeholderOf c hc.1)
  · simp only [preMap, if_neg hd, repMap,
      if_neg (fun hr => hd ((rlist_set c).mp hr))]
    exact replaceAll_skip_block bs ['n'] _ [c] t
      (fun hm => hc.1 ((List.mem_singleton.mp hm).symm))

/-- The final `&&092; → \` stage of `escapedcharPre` does not touch the image
of `preMap RlistP` on `okc` characters: every placeholder block differs from
`&&092;` and ordinary blocks contain no ampersand. -/
theorem pre_unmask_noop : ∀ c : Char, okc c → ∀ t,
    replaceAll "&&092;".data [bs] (preMap RlistP c ++ t)
      = preMap RlistP c ++ replaceAll "&&092;".data [bs] t := by
  intro c hc t
  by_cases hd : c ∈ RlistP
  · rcases (show c = '~' ∨ c = rb ∨ c = lb ∨ c = '=' ∨ c = '#' ∨ c = ':' by
        simpa [RlistP] using hd) with rfl | rfl | rfl | rfl | rfl | rfl
    · exact replaceAll_skip_ph '0' '9' '2' '1' '2' '6' [bs] t
        (by decide) (by decide) (by decide) (by decide)
    · exact replaceAll_skip_ph '0' '9' '2' '1' '2' '5' [bs] t
        (by decide) (by decide) (by decide) (by decide)
    · exact replaceAll_skip_ph '0' '9' '2' '1' '2' '3' [bs] t
        (by decide) (by decide) (by decide) (by decide)
    · exact replaceAll_skip_ph '0' '9' '2' '0' '6' '1' [bs] t
        (by decide) (by decide) (by decide) (by decide)
    · exact replaceAll_skip_ph '0' '9' '2' '0' '3' '5' [bs] t
        (by decide) (by decide) (by decide) (by decide)
    · exact replaceAll_skip_ph '0' '9' '2' '0' '5' '8' [bs] t
        (by decide) (by decide) (by decide) (by decide)
  · simp only [preMap, if_neg hd, repMap,
      if_neg (fun hr => hd ((rlist_set c).mp hr))]
    exact replaceAll_skip_block '&' ['&', '0', '9', '2', ';'] _ [c] t
      (fun hm => hc.2.1 ((List.mem_singleton.mp hm).symm))

/-- `escapedcharPre` on the blockwise image of `repMap Rlist` (the shape
produced by `repchar` on `okc` input) yields the blockwise image of
`preMap RlistP`: each escaped pair becomes its placeholder. -/
theorem escapedcharPre_cmap (s : List Char) (hs : ∀ c ∈ s, okc c) :
    escapedcharPre (cmap (repMap Rlist) s) = cmap (preMap RlistP) s := by
  have hbase : cmap (repMap Rlist) s = cmap (preMap []) s :=
    cmap_ext _ _ (fun c => by simp only [preMap, if_neg (List.not_mem_nil c)]) s
  cases s with
  | nil => rfl
  | cons c0 s0 =>
    have hne : cmap (repMap Rlist) (c0 :: s0) ≠ [] :=
      cmap_ne_nil _ _ _ (repMap_ne_nil Rlist c0)
    unfold escapedcharPre
    rw [if_neg hne]
    simp only []
    have e1 : replaceAll [bs, bs] "&&092;".data (cmap (repMap Rlist) (c0 :: s0))
        = cmap (preMap []) (c0 :: s0) := by
      rw [hbase]
      exact cmap_stage (P := okc) _ _ _ _ pre_mask_noop _ hs
    rw [e1]
    have e2 : replaceAll [bs, ':'] "&&058;".data (cmap (preMap []) (c0 :: s0))
        = cmap (preMap [':']) (c0 :: s0) :=
      cmap_stage (P := okc) _ _ _ _
        (pre_sub_stage ':' [] (by decide) (by decide) (by decide)) _ hs
    rw [e2]
    have e3 : replaceAll [bs, '#'] "&&035;".data (cmap (preMap [':']) (c0 :: s0))
        = cmap (preMap ['#', ':']) (c0 :: s0) :=
      cmap_stage (P := okc) _ _ _ _
        (pre_sub_stage '#' [':'] (by decide) (by decide) (by decide)) _ hs
    rw [e3]
    have e4 : replaceAll [bs, '='] "&&061;".data (cmap (preMap ['#', ':']) (c0 :: s0))
        = cmap (preMap ['=', '#', ':']) (c0 :: s0) :=
      cmap_stage (P := okc) _ _ _ _
        (pre_sub_stage '=' ['#', ':'] (by decide) (by decide) (by decide)) _ hs
    rw [e4]
    have e5 : replaceAll [bs, lb] "&&123;".data (cmap (preMap ['=', '#', ':']) (c0 :: s0))
        = cmap (preMap [lb, '=', '#', ':']) (c0 :: s0) :=
      cmap_stage (P := okc) _ _ _ _
        (pre_sub_stage lb ['=', '#', ':'] (by decide) (by decide) (by decide)) _ hs
    rw [e5]
    have e6 : replaceAll [bs, rb] "&&125;".data
        (cmap (preMap [lb, '=', '#', ':']) (c0 :: s0))
        = cmap (preMap [rb, lb, '=', '#', ':']) (c0 :: s0) :=
      cmap_stage (P := okc) _ _ _ _
        (pre_sub_stage rb [lb, '=', '#', ':'] (by decide) (by decide) (by decide)) _ hs
    rw [e6]
    have e7 : replaceAll [bs, '~'] "&&126;".data
        (cmap (preMap [rb, lb, '=', '#', ':']) (c0 :: s0))
        = cmap (preMap RlistP) (c0 :: s0) :=
      cmap_stage (P := okc) _ _ _ _
        (pre_sub_stage '~' [rb, lb, '=', '#', ':'] (by decide) (by decide) (by decide)) _ hs
    rw [e7]
    have e8 : replaceAll [bs, 'n'] "&&010".data (cmap (preMap RlistP) (c0 :: s0))
        = cmap (preMap RlistP) (c0 :: s0) :=
      cmap_stage (P := okc) _ _ _ _ pre_n_noop _ hs
    rw [e8]
    exact cmap_stage (P := okc) _ _ _ _ pre_unmask_noop _ hs

theorem postMap_else (done : List Char) (hsub : ∀ x ∈ done, x ∈ RlistP)
    (c : Char) (hd : c ∉ RlistP) : postMap done c = [c] := by
  simp only [postMap, if_neg (fun hm => hd (hsub c hm)), preMap, if_neg hd,
    repMap, if_neg (fun hr => hd ((rlist_set c).mp hr))]

theorem postMap_full (c : Char) : postMap RlistP c = [c] := by
  by_cases h : c ∈ RlistP
  · simp only [postMap, if_pos h]
  · exact postMap_else RlistP (fun _ hx => hx) c h

/-- The `&&058; → :` stage of `escapedcharPost` on the image of `postMap`. -/
theorem post_stage1 : ∀ c : Char, okc c → ∀ t,
    replaceAll "&&058;".data [':'] (postMap [] c ++ t)
      = postMap [':'] c ++ replaceAll "&&058;".data [':'] t := by
  intro c hc t
  by_cases hd : c ∈ RlistP
  · rcases (show c = '~' ∨ c = rb ∨ c = lb ∨ c = '=' ∨ c = '#' ∨ c = ':' by
        simpa [RlistP] using hd) with rfl | rfl | rfl | rfl | rfl | rfl
    · exact replaceAll_skip_ph '0' '5' '8' '1' '2' '6' [':'] t
        (by decide) (by decide) (by decide) (by decide)
    · exact replaceAll_skip_ph '0' '5' '8' '1' '2' '5' [':'] t
        (by decide) (by decide) (by decide) (by decide)
    · exact replaceAll_skip_ph '0' '5' '8' '1' '2' '3' [':'] t
        (by decide) (by decide) (by decide) (by decide)
    · exact replaceAll_skip_ph '0' '5' '8' '0' '6' '1' [':'] t
        (by decide) (by decide) (by decide) (by decide)
    · exact replaceAll_skip_ph '0' '5' '8' '0' '3' '5' [':'] t
        (by decide) (by decide) (by decide) (by decide)
    · exact replaceAll_consume '&' ['&', '0', '5', '8', ';'] [':'] t
  · rw [postMap_else [] (by decide) c hd, postMap_else [':'] (by decide) c hd]
    exact replaceAll_skip_block '&' ['&', '0', '5', '8', ';'] [':'] [c] t
      (fun hm => hc.2.1 ((List.mem_singleton.mp hm).symm))

/-- The `&&035; → #` stage of `escapedcharPost` on the image of `postMap`. -/
theorem post_stage2 : ∀ c : Char, okc c → ∀ t,
    replaceAll "&&035;".data ['#'] (postMap [':'] c ++ t)
      = postMap ['#', ':'] c ++ replaceAll "&&035;".data ['#'] t := by
  intro c hc t
  by_cases hd : c ∈ RlistP
  · rcases (show c = '~' ∨ c = rb ∨ c = lb ∨ c = '=' ∨ c = '#' ∨ c = ':' by
        simpa [RlistP] using hd) with rfl | rfl | rfl | rfl | rfl | rfl
    · exact replaceAll_skip_ph '0' '3' '5' '1' '2' '6' ['#'] t
        (by decide) (by decide) (by decide) (by decide)
    · exact replaceAll_skip_ph '0' '3' '5' '1' '2' '5' ['#'] t
        (by decide) (by decide) (by decide) (by decide)
    · exact replaceAll_skip_ph '0' '3' '5' '1' '2' '3' ['#'] t
        (by decide) (by decide) (by decide) (by decide)
    · exact replaceAll_skip_ph '0' '3' '5' '0' '6' '1' ['#'] t
        (by decide) (by decide) (by decide) (by decide)
    · exact replaceAll_consume '&' ['&', '0', '3', '5', ';'] ['#'] t
    · exact replaceAll_skip_block '&' ['&', '0', '3', '5', ';'] ['#'] [':'] t (by decide)
  · rw [postMap_else [':'] (by decide) c hd, postMap_else ['#', ':'] (by decide) c hd]
    exact replaceAll_skip_block '&' ['&', '0', '3', '5', ';'] ['#'] [c] t
      (fun hm => hc.2.1 ((List.mem_singleton.mp hm).symm))

/-- The `&&061; → =` stage of `escapedcharPost` on the image of `postMap`. -/
theorem post_stage3 : ∀ c : Char, okc c → ∀ t,
    replaceAll "&&061;".data ['='] (postMap ['#', ':'] c ++ t)
      = postMap ['=', '#', ':'] c ++ replaceAll "&&061;".data ['='] t := by
  intro c hc t
  by_cases hd : c ∈ RlistP
  · rcases (show c = '~' ∨ c = rb ∨ c = lb ∨ c = '=' ∨ c = '#' ∨ c = ':' by
        simpa [RlistP] using hd) with rfl | rfl | rfl | rfl | rfl | rfl
    · exact replaceAll_skip_ph '0' '6' '1' '1' '2' '6' ['='] t
        (by decide) (by decide) (by decide) (by decide)
    · exact replaceAll_skip_ph '0' '6' '1' '1' '2' '5' ['='] t
        (by decide) (by decide) (by decide) (by decide)
    · exact replaceAll_skip_ph '0' '6' '1' '1' '2' '3' ['='] t
        (by decide) (by decide) (by decide) (by decide)
    · exact replaceAll_consume '&' ['&', '0', '6', '1', ';'] ['='] t
    · exact replaceAll_skip_block '&' ['&', '0', '6', '1', ';'] ['='] ['#'] t (by decide)
    · exact replaceAll_skip_block '&' ['&', '0', '6', '1', ';'] ['='] [':'] t (by decide)
  · rw [postMap_else ['#', ':'] (by decide) c hd,
      postMap_else ['=', '#', ':'] (by decide) c hd]
    exact replaceAll_skip_block '&' ['&', '0', '6', '1', ';'] ['='] [c] t
      (fun hm => hc.2.1 ((List.mem_singleton.mp hm).symm))

/-- The placeholder stage restoring the opening curly brace in
`escapedcharPost`, on the image of `postMap`. -/
theorem post_stage4 : ∀ c : Char, okc c → ∀ t,
    replaceAll "&&123;".data [lb] (postMap ['=', '#', ':'] c ++ t)
      = postMap [lb, '=', '#', ':'] c ++ replaceAll "&&123;".data [lb] t := by
  intro c hc t
  by_cases hd : c ∈ RlistP
  · rcases (show c = '~' ∨ c = rb ∨ c = lb ∨ c = '=' ∨ c = '#' ∨ c = ':' by
        simpa [RlistP] using hd) with rfl | rfl | rfl | rfl | rfl | rfl
    · exact replaceAll_skip_ph '1' '2' '3' '1' '2' '6' [lb] t
        (by decide) (by decide) (by decide) (by decide)
    · exact replaceAll_skip_ph '1' '2' '3' '1' '2' '5' [lb] t
        (by decide) (by decide) (by decide) (by decide)
    · exact replaceAll_consume '&' ['&', '1', '2', '3', ';'] [lb] t
    · exact replaceAll_skip_block '&' ['&', '1', '2', '3', ';'] [lb] ['='] t (by decide)
    · exact replaceAll_skip_block '&' ['&', '1', '2', '3', ';'] [lb] ['#'] t (by decide)
    · exact replaceAll_skip_block '&' ['&', '1', '2', '3', ';'] [lb] [':'] t (by decide)
  · rw [postMap_else ['=', '#', ':'] (by decide) c hd,
      postMap_else [lb, '=', '#', ':'] (by decide) c hd]
    exact replaceAll_skip_block '&' ['&', '1', '2', '3', ';'] [lb] [c] t
      (fun hm => hc.2.1 ((List.mem_singleton.mp hm).symm))

/-- The placeholder stage restoring the closing curly brace in
`escapedcharPost`, on the image of `postMap`. -/
theorem post_stage5 : ∀ c : Char, okc c → ∀ t,
    replaceAll "&&125;".data [rb] (postMap [lb, '=', '#', ':'] c ++ t)
      = postMap [rb, lb, '=', '#', ':'] c ++ replaceAll "&&125;".data [rb] t := by
  intro c hc t
  by_cases hd : c ∈ RlistP
  · rcases (show c = '~' ∨ c = rb ∨ c = lb ∨ c = '=' ∨ c = '#' ∨ c = ':' by
        simpa [RlistP] using hd) with rfl | rfl | rfl | rfl | rfl | rfl
    · exact replaceAll_skip_ph '1' '2' '5' '1' '2' '6' [rb] t
        (by decide) (by decide) (by decide) (by decide)
    · exact replaceAll_consume '&' ['&', '1', '2', '5', ';'] [rb] t
    · exact replaceAll_skip_block '&' ['&', '1', '2', '5', ';'] [rb] [lb] t (by decide)
    · exact replaceAll_skip_block '&' ['&', '1', '2', '5', ';'] [rb] ['='] t (by decide)
    · exact replaceAll_skip_block '&' ['&', '1', '2', '5', ';'] [rb] ['#'] t (by decide)
    · exact replaceAll_skip_block '&' ['&', '1', '2', '5', ';'] [rb] [':'] t (by decide)
  · rw [postMap_else [lb, '=', '#', ':'] (by decide) c hd,
      postMap_else [rb, lb, '=', '#', ':'] (by decide) c hd]
    exact replaceAll_skip_block '&' ['&', '1', '2', '5', ';'] [rb] [c] t
      (fun hm => hc.2.1 ((List.mem_singleton.mp hm).symm))

/-- The `&&126; → ~` stage of `escapedcharPost` on the image of `postMap`. -/
theorem post_stage6 : ∀ c : Char, okc c → ∀ t,
    replaceAll "&&126;".data ['~'] (postMap [rb, lb, '=', '#', ':'] c ++ t)
      = postMap RlistP c ++ replaceAll "&&126;".data ['~'] t := by
  intro c hc t
  by_cases hd : c ∈ RlistP
  · rcases (show c = '~' ∨ c = rb ∨ c = lb ∨ c = '=' ∨ c = '#' ∨ c = ':' by
        simpa [RlistP] using hd) with rfl | rfl | rfl | rfl | rfl | rfl
    · exact replaceAll_consume '&' ['&', '1', '2', '6', ';'] ['~'] t
    · exact replaceAll_skip_block '&' ['&', '1', '2', '6', ';'] ['~'] [rb] t (by decide)
    · exact replaceAll_skip_block '&' ['&', '1', '2', '6', ';'] ['~'] [lb] t (by decide)
    · exact replaceAll_skip_block '&' ['&', '1', '2', '6', ';'] ['~'] ['='] t (by decide)
    · exact replaceAll_skip_block '&' ['&', '1', '2', '6', ';'] ['~'] ['#'] t (by decide)
    · exact replaceAll_skip_block '&' ['&', '1', '2', '6', ';'] ['~'] [':'] t (by decide)
  · rw [postMap_else [rb, lb, '=', '#', ':'] (by decide) c hd,
      postMap_else RlistP (fun _ hx => hx) c hd]
    exact replaceAll_skip_block '&' ['&', '1', '2', '6', ';'] ['~'] [c] t
      (fun hm => hc.2.1 ((List.mem_singleton.mp hm).symm))

/-- The final `&&010 → n` stage of `escapedcharPost` is the identity on the
fully restored image. -/
theorem post_n_noop : ∀ c : Char, okc c → ∀ t,
    replaceAll "&&010".data ['n'] (postMap RlistP c ++ t)
      = postMap RlistP c ++ replaceAll "&&010".data ['n'] t := by
  intro c hc t
  rw [postMap_full c]
  exact replaceAll_skip_block '&' ['&', '0', '1', '0'] ['n'] [c] t
    (fun hm => hc.2.1 ((List.mem_singleton.mp hm).symm))

/-- On a string with no backslash and no ampersand every stage of
`escapedcharPre` is the identity. -/
theorem escapedcharPre_id (s : List Char) (h : ∀ c ∈ s, c ≠ bs ∧ c ≠ '&') :
    escapedcharPre s = s := by
  unfold escapedcharPre
  by_cases he : s = []
  · rw [if_pos he]
  · rw [if_neg he]
    simp only []
    have hbs : bs ∉ s := fun hm => (h bs hm).1 rfl
    have hamp : '&' ∉ s := fun hm => (h '&' hm).2 rfl
    have e1 : replaceAll [bs, bs] "&&092;".data s = s :=
      replaceAll_id_of_head_notin bs [bs] _ s hbs
    have e2 : replaceAll [bs, ':'] "&&058;".data s = s :=
      replaceAll_id_of_head_notin bs [':'] _ s hbs
    have e3 : replaceAll [bs, '#'] "&&035;".data s = s :=
      replaceAll_id_of_head_notin bs ['#'] _ s hbs
    have e4 : replaceAll [bs, '='] "&&061;".data s = s :=
      replaceAll_id_of_head_notin bs ['='] _ s hbs
    have e5 : replaceAll [bs, lb] "&&123;".data s = s :=
      replaceAll_id_of_head_notin bs [lb] _ s hbs
    have e6 : replaceAll [bs, rb] "&&125;".data s = s :=
      replaceAll_id_of_head_notin bs [rb] _ s hbs
    have e7 : replaceAll [bs, '~'] "&&126;".data s = s :=
      replaceAll_id_of_head_notin bs ['~'] _ s hbs
    have e8 : replaceAll [bs, 'n'] "&&010".data s = s :=
      replaceAll_id_of_head_notin bs ['n'] _ s hbs
    have e9 : replaceAll "&&092;".data [bs] s = s :=
      replaceAll_id_of_head_notin '&' ['&', '0', '9', '2', ';'] _ s hamp
    rw [e1, e2, e3, e4, e5, e6, e7, e8, e9]

/-- On a string with no ampersand every stage of `escapedcharPost` is the
identity. -/
theorem escapedcharPost_id (s : List Char) (hamp : '&' ∉ s) :
    escapedcharPost s = s := by
  unfold escapedcharPost
  by_cases he : s = []
  · rw [if_pos he]
  · rw [if_neg he]
    simp only []
    have e1 : replaceAll "&&058;".data [':'] s = s :=
      replaceAll_id_of_head_notin '&' ['&', '0', '5', '8', ';'] _ s hamp
    have e2 : replaceAll "&&035;".data ['#'] s = s :=
      replaceAll_id_of_head_notin '&' ['&', '0', '3', '5', ';'] _ s hamp
    have e3 : replaceAll "&&061;".data ['='] s = s :=
      replaceAll_id_of_head_notin '&' ['&', '0', '6', '1', ';'] _ s hamp
    have e4 : replaceAll "&&123;".data [lb] s = s :=
      replaceAll_id_of_head_notin '&' ['&', '1', '2', '3', ';'] _ s hamp
    have e5 : replaceAll "&&125;".data [rb] s = s :=
      replaceAll_id_of_head_notin '&' ['&', '1', '2', '5', ';'] _ s hamp
    have e6 : replaceAll "&&126;".data ['~'] s = s :=
      replaceAll_id_of_head_notin '&' ['&', '1', '2', '6', ';'] _ s hamp
    have e7 : replaceAll "&&010".data ['n'] s = s :=
      replaceAll_id_of_head_notin '&' ['&', '0', '1', '0'] _ s hamp
    rw [e1, e2, e3, e4, e5, e6, e7]

/-- `escapedcharPost` on the blockwise image of `preMap RlistP` (the shape
produced by `escapedcharPre` after `repchar`) restores the original string. -/
theorem escapedcharPost_cmap (s : List Char) (hs : ∀ c ∈ s, okc c) :
    escapedcharPost (cmap (preMap RlistP) s) = s := by
  have hbase : cmap (preMap RlistP) s = cmap (postMap []) s :=
    cmap_ext _ _ (fun c => by simp only [postMap, if_neg (List.not_mem_nil c)]) s
  cases s with
  | nil => rfl
  | cons c0 s0 =>
    have hne : cmap (preMap RlistP) (c0 :: s0) ≠ [] :=
      cmap_ne_nil _ _ _ (preMap_ne_nil RlistP c0)
    unfold escapedcharPost
    rw [if_neg hne]
    simp only []
    rw [hbase]
    have e1 : replaceAll "&&058;".data [':'] (cmap (postMap []) (c0 :: s0))
        = cmap (postMap [':']) (c0 :: s0) :=
      cmap_stage (P := okc) _ _ _ _ post_stage1 _ hs
    rw [e1]
    have e2 : replaceAll "&&035;".data ['#'] (cmap (postMap [':']) (c0 :: s0))
        = cmap (postMap ['#', ':']) (c0 :: s0) :=
      cmap_stage (P := okc) _ _ _ _ post_stage2 _ hs
    rw [e2]
    have e3 : replaceAll "&&061;".data ['='] (cmap (postMap ['#', ':']) (c0 :: s0))
        = cmap (postMap ['=', '#', ':']) (c0 :: s0) :=
      cmap_stage (P := okc) _ _ _ _ post_stage3 _ hs
    rw [e3]
    have e4 : replaceAll "&&123;".data [lb] (cmap (postMap ['=', '#', ':']) (c0 :: s0))
        = cmap (postMap [lb, '=', '#', ':']) (c0 :: s0) :=
      cmap_stage (P := okc) _ _ _ _ post_stage4 _ hs
    rw [e4]
    have e5 : replaceAll "&&125;".data [rb]
        (cmap (postMap [lb, '=', '#', ':']) (c0 :: s0))
        = cmap (postMap [rb, lb, '=', '#', ':']) (c0 :: s0) :=
      cmap_stage (P := okc) _ _ _ _ post_stage5 _ hs
    rw [e5]
    have e6 : replaceAll "&&126;".data ['~']
        (cmap (postMap [rb, lb, '=', '#', ':']) (c0 :: s0))
        = cmap (postMap RlistP) (c0 :: s0) :=
      cmap_stage (P := okc) _ _ _ _ post_stage6 _ hs
    rw [e6]
    have e7 : replaceAll "&&010".data ['n'] (cmap (postMap RlistP) (c0 :: s0))
        = cmap (postMap RlistP) (c0 :: s0) :=
      cmap_stage (P := okc) _ _ _ _ post_n_noop _ hs
    rw [e7, cmap_ext _ _ postMap_full, cmap_pure]

/-- C2 (counterexample): the escape and unescape translations are not mutual
inverses on all strings.  `escapedcharPost (escapedcharPre s)` un-escapes: on
the two-character string backslash-colon it returns the bare colon, not the
original.  And with a newline in the text the full pipeline
`escapedcharPost ∘ escapedcharPre ∘ repchar` returns the letter `n`: `repchar`
writes the newline as backslash-n, `escapedcharPre` masks that pair as
`&&010`, and `escapedcharPost` replaces the mask by the tail of the literal
two-character string backslash-n, i.e. by the letter `n`, not by a newline. -/
theorem escapedchar_inverse_counterexample :
    (escapedcharPost (escapedcharPre [bs, ':']) = [':'] ∧ [':'] ≠ [bs, ':'])
    ∧ (escapedcharPost (escapedcharPre (repchar [lf])) = ['n'] ∧ ['n'] ≠ [lf]) :=
  ⟨⟨by decide, by decide⟩, ⟨by decide, by decide⟩⟩

/-- C2 (amended): `escapedcharPost ∘ escapedcharPre` is the identity exactly on
strings free of backslashes and ampersands (on such strings nothing is masked,
so nothing is unmasked), and the full export/parse escaping round-trip
`escapedcharPost (escapedcharPre (repchar s)) = s` holds for every string of
ordinary characters — no backslash, no ampersand, no carriage return, no
newline — including all the reserved characters `:`, `#`, `=`, the curly
braces and `~`. -/
theorem escapedchar_roundtrip_amended :
    (∀ s : List Char, (∀ c ∈ s, c ≠ bs ∧ c ≠ '&') →
      escapedcharPost (escapedcharPre s) = s)
    ∧ (∀ s : List Char, (∀ c ∈ s, okc c) →
      escapedcharPost (escapedcharPre (repchar s)) = s) := by
  constructor
  · intro s h
    rw [escapedcharPre_id s h,
      escapedcharPost_id s (fun hm => (h '&' hm).2 rfl)]
  · intro s hs
    rw [repchar_cmap s hs, escapedcharPre_cmap s hs, escapedcharPost_cmap s hs]

/-- C2 (witness): the amended round-trip evaluated on concrete strings, one
with no escaping at all and one containing every reserved character. -/
theorem escapedchar_roundtrip_amended_witness :
    escapedcharPost (escapedcharPre "a:b".data) = "a:b".data
    ∧ escapedcharPost (escapedcharPre (repchar ":#=\x7b\x7d~q".data))
      = ":#=\x7b\x7d~q".data := by
  constructor
  · exact escapedchar_roundtrip_amended.1 "a:b".data (by decide)
  · exact escapedchar_roundtrip_amended.2 ":#=\x7b\x7d~q".data (by decide)
